import Mathlib

/-!
# Verification of `quantipy/core/tools/dp/prep.py`

A shallow embedding of the recode/merge engine of the quantipy3 repository
(file `quantipy/core/tools/dp/prep.py`), together with theorems settling the
frozen claims about its natural-language specification.

Modelling conventions:
* Python cell values in play are integers, strings and `NaN`; they are
  embedded as the inductive type `Val`.  (Float cells do not occur in any
  claim; Python booleans are not used by the code under scrutiny.)
* A pandas `Series` of cells is a `List Val` (or `List (Option String)` for
  delimited-set string series, where `none` is `NaN`).
* A pandas `DataFrame` is a `Frame`: a column-name list plus a row list.
* Python exceptions are `Except String`.
* `str.split(sep)` (single-character separator), `str.replace` and
  `sorted` are implemented by structural recursion so that concrete
  witnesses evaluate inside the kernel.
-/

/-- Python cell values occurring in the claims: `int`, `str`, and `NaN`.
`NaN` is the pandas missing value. -/
inductive Val where
  | i (n : Int)
  | s (st : String)
  | nan
  deriving DecidableEq

/-- Python `==` on cell values: structural equality on same-typed values,
`False` across types, and `NaN == x` is always `False` (IEEE semantics). -/
def pyEq : Val → Val → Bool
  | Val.i a, Val.i b => a == b
  | Val.s a, Val.s b => a == b
  | _, _ => false

/-- Python `str(x)` on a cell value; `str(np.nan)` is the string `"nan"`,
matching what `DataFrame.astype('str')` produces for missing cells. -/
def pyStr : Val → String
  | Val.i n => toString n
  | Val.s st => st
  | Val.nan => "nan"

/-- `s.split(sep)` for a single-character separator, on the character list. -/
def splitCharAux (sep : Char) : List Char → List Char → List (List Char)
  | [], acc => [acc.reverse]
  | c :: rest, acc =>
      if c = sep then acc.reverse :: splitCharAux sep rest []
      else splitCharAux sep rest (c :: acc)

/-- Python `s.split(sep)` for a single-character separator.  For example
`"a;b;".split(';') == ['a', 'b', '']` and `"".split(';') == ['']`. -/
def pySplitChar (sep : Char) (s : String) : List String :=
  (splitCharAux sep s.data []).map fun l => String.mk l

/-- Python `x.replace('nan', '')`: delete every (non-overlapping,
left-to-right) occurrence of the substring `"nan"`. -/
def stripNanAux : List Char → List Char
  | 'n' :: 'a' :: 'n' :: rest => stripNanAux rest
  | c :: rest => c :: stripNanAux rest
  | [] => []

def stripNan (s : String) : String := String.mk (stripNanAux s.data)

/-- Lexicographic comparison of strings by Unicode code point, the order
Python uses to compare strings.  Implemented structurally on the character
lists so that it evaluates inside the kernel. -/
def charListLe : List Char → List Char → Bool
  | [], _ => true
  | _ :: _, [] => false
  | a :: as, b :: bs =>
      if a.toNat < b.toNat then true
      else if a.toNat = b.toNat then charListLe as bs else false

def strLe (a b : String) : Bool := charListLe a.data b.data

/-- Insert into an already-sorted list (helper for `pySorted`). -/
def insertSorted (x : String) : List String → List String
  | [] => [x]
  | y :: ys => if strLe x y then x :: y :: ys else y :: insertSorted x ys

/-- Python `sorted` on strings: insertion sort with respect to `strLe`
(ascending lexicographic order by code point). -/
def pySorted : List String → List String
  | [] => []
  | x :: xs => insertSorted x (pySorted xs)

/-- First-occurrence de-duplication, as done by the Python idiom
`for c in l: if not c in codes: codes.append(c)`. -/
def pyDedupAux (acc : List String) : List String → List String
  | [] => acc.reverse
  | c :: rest => if c ∈ acc then pyDedupAux acc rest else pyDedupAux (c :: acc) rest

def pyDedup (l : List String) : List String := pyDedupAux [] l

/-- Python `';'.join(l)`. -/
def joinWith (sep : String) : List String → String
  | [] => ""
  | [c] => c
  | c :: rest => c ++ sep ++ joinWith sep rest

/-! ## The delimited-set codec: `condense_dichotomous_set` (prep.py 268-354)

The function is embedded for its default configuration `values_regex=None`
and `sniff_single=False` (the configuration used by every claim and by the
recode engine itself at prep.py 891/906).  All pandas operations it performs
(`applymap`, `astype('str')`, per-column `replace`, row-wise `apply`) are
independent per row, so the embedding `condenseRow` computes one output cell
from one input row; `condense_dichotomous_set` maps it over the rows. -/

/-- prep.py 293: `df.applymap(lambda x: x if x in [yes, no] else no)` —
anything not counted as yes or no is treated as no. -/
def applymapCell (yes no x : Val) : Val :=
  if pyEq x yes || pyEq x no then x else no

/-- The response code associated with a dichotomous column (prep.py 296-309):
the column-name suffix after the last `'_'` when `values_from_labels`, else
the 1-based column position. -/
def codeOf (vfl : Bool) (idx : Nat) (col : String) : String :=
  if vfl then (pySplitChar '_' col).getLastD "" else toString idx

/-- The first per-column `replace` map of prep.py 311-318: send `'nan'`,
`'{no}.0'` and `'{no}'` to `'nan'`. -/
def replaceNoMap (no : Val) (cellStr : String) : String :=
  if cellStr = "nan" ∨ cellStr = pyStr no ++ ".0" ∨ cellStr = pyStr no
    then "nan" else cellStr

/-- The second per-column `replace` map of prep.py 319-325: send `'{yes}'`
and `'{yes}.0'` to the column's code. -/
def replaceYesMap (yes : Val) (code : String) (s1 : String) : String :=
  if s1 = pyStr yes ∨ s1 = pyStr yes ++ ".0" then code else s1

/-- The two per-column `replace` maps of prep.py 311-325, in sequence. -/
def replCell (yes no : Val) (code : String) (cellStr : String) : String :=
  replaceYesMap yes code (replaceNoMap no cellStr)

/-- One cell of the condensed frame: applymap, stringify, then the two
replaces (prep.py 293-325). -/
def cellResult (yes no : Val) (code : String) (x : Val) : String :=
  replCell yes no code (pyStr (applymapCell yes no x))

/-- The per-column response codes of a dichotomous frame (prep.py 296-309). -/
def codesList (cols : List String) (vfl : Bool) : List String :=
  cols.enum.map fun p => codeOf vfl (p.1 + 1) p.2

/-- `condense_dichotomous_set` restricted to a single row (prep.py 268-354,
with `values_regex=None`, `sniff_single=False`): join the non-`'nan'` cell
strings with `';'`, append a trailing `';'`, and turn the bare `';'`
(no responses) into `NaN`. -/
def condenseRow (cols : List String) (vfl : Bool) (yes no : Val) (row : List Val) :
    Option String :=
  let cells := List.zipWith (cellResult yes no) (codesList cols vfl) row
  let joined := joinWith ";" (cells.filter fun s => s ≠ "nan") ++ ";"
  if joined = ";" then none else some joined

/-- `condense_dichotomous_set` on a whole frame given as a row list
(prep.py 268-354, defaults `values_regex=None`, `sniff_single=False`).
The `df.dropna().size == 0` early return at prep.py 345-347 returns the very
same `series` value and is therefore output-equivalent to falling through. -/
def condense_dichotomous_set (cols : List String) (rows : List (List Val))
    (vfl : Bool) (yes no : Val) : List (Option String) :=
  rows.map (condenseRow cols vfl yes no)

/-- The result of `condense_dichotomous_set` on one row as the claim C2
describes it, with the single deviation that the selected codes are kept in
the order of the input columns rather than re-sorted: collect the columns
whose cell equals `yes`, map each to its code, join with `';'` and append a
trailing `';'`; `NaN` when nothing is selected. -/
def condenseRowColOrder (cols : List String) (vfl : Bool) (yes no : Val)
    (row : List Val) : Option String :=
  let sel := (((codesList cols vfl).zip row).filter fun p => pyEq p.2 yes).map Prod.fst
  if sel = [] then none else some (joinWith ";" sel ++ ";")

/-- The claim-side reading of `condense_dichotomous_set` on one row, written
from the words of claim C2: collect the columns whose cell equals `yes`, map
each to its code, *sort the selected codes ascending*, join with `';'` and
append a trailing `';'`. -/
def condenseRowSpecSorted (cols : List String) (vfl : Bool) (yes no : Val)
    (row : List Val) : Option String :=
  let sel := (((codesList cols vfl).zip row).filter fun p => pyEq p.2 yes).map Prod.fst
  if sel = [] then none else some (joinWith ";" (pySorted sel) ++ ";")

/-! ## Delimited-set joining and the recode engine

`join_delimited_set_series` (prep.py 805-844), `_merge_delimited_sets`
(prep.py 1472-1483, the local helper of `hmerge`) and the delimited-set
branch of `recode_from_index_mapper` (prep.py 877-906). -/

/-- pandas string addition on two aligned series cells: `NaN` propagates
(`"a" + NaN` is `NaN`).  Note that prep.py 835 `df.fillna('')` fills the
*concatenated frame* `df`, not the operands of the `ds1 + ds2` expression at
prep.py 837, so it does not stop this propagation. -/
def pyAddOpt (a b : Option String) : Option String :=
  match a, b with
  | some x, some y => some (x ++ y)
  | _, _ => none

/-- `join_delimited_set_series(ds1, ds2, append)` (prep.py 805-844).
`append=True`: `joined = ds1 + ds2` (prep.py 837), with `NaN`-propagating
string addition.  `append=False`: start from a copy of `ds1` and
`update` with the non-null entries of `ds2` (prep.py 839-841).  Finally
`''` is replaced by `NaN` (prep.py 843). -/
def join_delimited_set_series (ds1 ds2 : List (Option String)) (append : Bool) :
    List (Option String) :=
  let joined := if append then List.zipWith pyAddOpt ds1 ds2
    else List.zipWith (fun a b => match b with | some y => some y | none => a) ds1 ds2
  joined.map fun c => if c = some "" then none else c

/-- Insertion into a sorted `Int` list (helper for `pySortedInt`). -/
def insertSortedInt (x : Int) : List Int → List Int
  | [] => [x]
  | y :: ys => if x ≤ y then x :: y :: ys else y :: insertSortedInt x ys

/-- Python `sorted` on a list of ints (prep.py 883 `sorted(index_mapper.keys())`
and prep.py 902 `sorted(ds.columns.tolist())`). -/
def pySortedInt : List Int → List Int
  | [] => []
  | x :: xs => insertSortedInt x (pySortedInt xs)

/-- `_merge_delimited_sets(x)`, the local helper of `hmerge`
(prep.py 1472-1483): delete the `'nan'` substrings, split on `';'`, collect
the non-empty codes first-seen-first (de-duplicating), and return `NaN` if
none remain, else the codes sorted as *strings* joined with `';'` plus a
trailing `';'`. -/
def mergeDelimitedSets (x : String) : Option String :=
  let codes := pyDedup ((pySplitChar ';' (stripNan x)).filter fun c => c ≠ "")
  if codes = [] then none
  else some (joinWith ";" (pySorted codes) ++ ";")

/-- Python `int(float(s))` for the code strings handled by the recode engine
(prep.py 901): drop any fractional part (truncation toward zero on the
decimal-literal strings that occur here) and read the integer. -/
def pyIntOfFloatStr (s : String) : Int :=
  (((pySplitChar '.' s).headD s).toInt?).getD 0

/-- The condensed series built from an index mapper (prep.py 882-891): the
dichotomous frame `ds` has one column per mapper key — the keys sorted
numerically and stringified (prep.py 883), or the target's declared value
codes when the mapper is empty (prep.py 884-887) — with `1` at each key's
row index, and is condensed with `condense_dichotomous_set`'s defaults. -/
def condensedMapperSeries (metaVals : List Int) (n : Nat)
    (mapper : List (Int × List Nat)) : List (Option String) :=
  let keys := if mapper.isEmpty then metaVals else pySortedInt (mapper.map Prod.fst)
  (List.range n).map fun i =>
    condenseRow (keys.map toString) true (Val.i 1) (Val.i 0)
      (keys.map fun k => if ((mapper.lookup k).getD []).contains i
        then Val.i 1 else Val.i 0)

/-- The joined series of the delimited-set recode branch (prep.py 891-893):
the seeded series joined with the condensed mapper series. -/
def joinedOf (metaVals : List Int) (seed : List (Option String))
    (mapper : List (Int × List Nat)) (append : Bool) : List (Option String) :=
  join_delimited_set_series seed (condensedMapperSeries metaVals seed.length mapper)
    append

/-- The re-normalization step of the delimited-set recode branch
(prep.py 899-906): `str.get_dummies(';')` over the joined series (pandas
discards the empty token produced by the trailing `';'`), rename the dummy
columns to ints via `int(float(c))`, sort them numerically, and re-condense.
A `NaN` cell has no tokens and re-condenses to `NaN`. -/
def renormalizeSeries (series : List (Option String)) : List (Option String) :=
  let codes := pySortedInt
    ((pyDedup (series.flatMap fun c => match c with
        | some s => (pySplitChar ';' s).filter fun t => t ≠ ""
        | none => [])).map pyIntOfFloatStr)
  series.map fun c => match c with
    | none => none
    | some s => condenseRow (codes.map toString) true (Val.i 1) (Val.i 0)
        (codes.map fun k =>
          if ((pySplitChar ';' s).filter fun t => t ≠ "").any
              (fun t => pyIntOfFloatStr t = k)
          then Val.i 1 else Val.i 0)

/-- Result of the delimited-set recode branch: the produced series and
whether the empty-dependency warning (prep.py 895-898) fired. -/
structure RecodeResult where
  series : List (Option String)
  warned : Bool
  deriving DecidableEq

/-- The `'delimited set'` branch of `recode_from_index_mapper`
(prep.py 877-906).  `metaVals` are the declared value codes of the target
column (used only when the mapper is empty, prep.py 884-887); `seed` is the
seeded working series.  The numeric-dtype prefix at prep.py 878-881 only
fires for an all-`NaN` seed (dtype `float64`), where its assignment to the
empty non-null slice is a no-op, so it does not appear here.  If the joined
series has no non-null entry the function warns and returns it unchanged
(prep.py 895-898); otherwise it is re-normalized (prep.py 899-906). -/
def recode_from_index_mapper_ds (metaVals : List Int) (seed : List (Option String))
    (mapper : List (Int × List Nat)) (append : Bool) : RecodeResult :=
  if (joinedOf metaVals seed mapper append).all (fun c => c = none) then
    { series := joinedOf metaVals seed mapper append, warned := true }
  else
    { series := renormalizeSeries (joinedOf metaVals seed mapper append),
      warned := false }

/-! ## Metadata model and `merge_meta` (prep.py 1060-1306)

A metadata document is modelled by the fields the claims observe: each
column's declared type, the mask item `source` references, and the named
sets.  Text labels and categorical value lists also live in the real
documents; their merge (prep.py 1060-1105, 1151-1183, 1227-1250) only
rewrites label/value payloads inside the surviving left document and is
observed by no claim, so those payloads are not carried here.  The
type-compatibility check that `merge_column_metadata` performs first
(prep.py 1095) is modelled in full. -/

structure Meta where
  columns : List (String × String)
  masks : List (String × List String)
  sets : List (String × List String)
  deriving DecidableEq

/-- Python `item.split('@')` with exactly-two-part unpacking
(`source, name = item.split('@')`); any other arity raises `ValueError`. -/
def splitAt2 (s : String) : Option (String × String) :=
  match pySplitChar '@' s with
  | [a, b] => some (a, b)
  | _ => none

/-- Modelled from its call sites: `uniquify_list` (imported from
`quantipy.core.tools.dp.query`, not under src/) removes duplicates from a
list preserving first occurrences. -/
def uniquify_list (l : List String) : List String := pyDedup l

/-- All quantipy column types (prep.py 1111-1112). -/
def allTypes : List String :=
  ["array", "int", "float", "single", "delimited set", "string",
   "date", "time", "boolean"]

/-- The directed hard-incompatibility table `err` of prep.py 1113-1128;
`err.get(l_type, all_types)` defaults to every type for keys missing from
the dict (e.g. `boolean`). -/
def errTable : String → List String
  | "array" => allTypes
  | "int" => ["float", "delimited set", "string", "date", "time", "array"]
  | "float" => ["delimited set", "string", "date", "time", "array"]
  | "single" => allTypes
  | "delimited set" => ["string", "date", "time", "array", "int", "float"]
  | "string" => ["int", "float", "single", "delimited set", "date", "time", "array"]
  | "date" => ["int", "float", "single", "delimited set", "string", "time", "array"]
  | "time" => ["int", "float", "single", "delimited set", "string", "time", "array"]
  | _ => allTypes

/-- The directed warn table of prep.py 1129-1138, with the same
`dict.get` default. -/
def warnTable : String → List String
  | "int" => ["single"]
  | "float" => ["int", "single"]
  | "delimited set" => ["single"]
  | "string" => ["boolean"]
  | _ => allTypes

/-- Outcome of `_compatible_types`: silently compatible, compatible with a
`warnings.warn`, or a raised `TypeError`. -/
inductive TypeCheck where
  | ok
  | warn (msg : String)
  | err (msg : String)
  deriving DecidableEq

def incompatibleMsg (name l r : String) : String :=
  "\n'" ++ name ++ "': Trying to merge incompatibe types: Found '" ++ l
    ++ "' in left and '" ++ r ++ "' in right dataset."

def inconsistentMsg (name l r : String) : String :=
  "\n'" ++ name ++ "': Merge inconsistent types: Found '" ++ l
    ++ "' in left and '" ++ r ++ "' in right dataset."

def foundMsg (name l r : String) : String :=
  "\n'" ++ name ++ "': Found '" ++ l ++ "' in left and '" ++ r
    ++ "' in right dataset."

/-- `_compatible_types(left_column, right_column)` (prep.py 1107-1149):
identical types pass silently; then the `err` table is consulted (raise),
then the `warn` table (warn), and anything else raises the third message.
The misspelling `incompatibe` is the source's. -/
def compatible_types (name l_type r_type : String) : TypeCheck :=
  if l_type = r_type then TypeCheck.ok
  else if r_type ∈ errTable l_type then
    TypeCheck.err (incompatibleMsg name l_type r_type)
  else if r_type ∈ warnTable l_type then
    TypeCheck.warn (inconsistentMsg name l_type r_type)
  else TypeCheck.err (foundMsg name l_type r_type)

/-- The columns contributed by one mask's items (prep.py 1209-1212): the
`columns@` sources of the mask. -/
def maskColumnItems (mitems : List String) : Except String (List String) :=
  mitems.foldlM (fun acc mi =>
    match splitAt2 mi with
    | none => Except.error ("ValueError: cannot unpack '" ++ mi ++ "'")
    | some (s, n) =>
        if s = "columns" then Except.ok (acc ++ [n]) else Except.ok acc) []

/-- The column list collected from `meta_right['sets'][from_set]`
(prep.py 1200-1215): `columns@` items directly, `masks@` items through the
mask's own column items. -/
def collectSetCols (metaRight : Meta) (items : List String) :
    Except String (List String) :=
  items.foldlM (fun acc item =>
    match splitAt2 item with
    | none => Except.error ("ValueError: cannot unpack '" ++ item ++ "'")
    | some (source, name) =>
        if source = "columns" then Except.ok (acc ++ [name])
        else if source = "masks" then
          match metaRight.masks.lookup name with
          | none => Except.error ("KeyError: masks '" ++ name ++ "'")
          | some mitems => do
              let sub ← maskColumnItems mitems
              Except.ok (acc ++ sub)
        else Except.ok acc) []

/-- Python's `list.sort(key=str.lower)` sorts in place and returns `None`;
prep.py 1258 binds this return value to `cols`, so the case-insensitively
sorted list itself is discarded and `cols` is `None`. -/
def pyListSortReturnValue (l : List String) : Option (List String) := none

/-- The `cols` binding of `merge_meta` (prep.py 1195-1258): the uniquified
columns of `right.sets[from_set]` when that set exists, else the `None`
produced by the in-place `list.sort` call. -/
def mergeMetaCols (metaRight : Meta) (from_set : String) :
    Except String (Option (List String)) :=
  match metaRight.sets.lookup from_set with
  | some items => do
      let cols ← collectSetCols metaRight items
      Except.ok (some (uniquify_list cols))
  | none => Except.ok (pyListSortReturnValue (metaRight.columns.map Prod.fst))

/-- One iteration of the `merge_meta` column loop (prep.py 1260-1293): look
the column up in the right meta (`KeyError` when absent), and when it is
also a left column, append it to `col_updates` after the type-compatibility
check of `merge_column_metadata` (which raises on a hard incompatibility and
merely warns otherwise). -/
def mergeMetaStep (metaLeft metaRight : Meta) (acc : List String)
    (col_name : String) : Except String (List String) :=
  match metaRight.columns.lookup col_name with
  | none => Except.error ("KeyError: columns '" ++ col_name ++ "'")
  | some rtype =>
      match metaLeft.columns.lookup col_name with
      | none => Except.ok acc
      | some ltype =>
          match compatible_types col_name ltype rtype with
          | TypeCheck.err msg => Except.error msg
          | _ => Except.ok (acc ++ [col_name])

/-- `merge_meta` (prep.py 1185-1306), restricted to the observables the
claims need: the merged column list `cols` and the updated-column list
`col_updates` (the source also returns the mutated left meta, whose
text/value payloads no claim observes).  Iterating a `None` `cols`
(prep.py 1261) raises `TypeError`; for each column present in both metas the
type-compatibility check of `merge_column_metadata` (prep.py 1095) may raise;
a column named by `from_set` but absent from the right columns raises
`KeyError` (prep.py 1270); finally prep.py 1295 reads
`meta_left['sets']['data file']`, raising `KeyError` when absent. -/
def merge_meta (metaLeft metaRight : Meta) (from_set : String) :
    Except String (List String × List String) := do
  let colsOpt ← mergeMetaCols metaRight from_set
  match colsOpt with
  | none => Except.error "TypeError: 'NoneType' object is not iterable"
  | some cols => do
      let col_updates ← cols.foldlM (mergeMetaStep metaLeft metaRight) []
      match metaLeft.sets.lookup "data file" with
      | none => Except.error "KeyError: 'data file'"
      | some _ => Except.ok (cols, col_updates)

/-! ## Dataset frames and the horizontal merge `hmerge` (prep.py 1430-1582) -/

/-- A pandas `DataFrame`: named columns and positional rows.  The row index
is positional (`0..n-1`); quantipy's merges reset or ignore index labels. -/
structure Frame where
  cols : List String
  rows : List (List Val)
  deriving DecidableEq

/-- First index of a column name in a column list (`df.columns.get_loc`). -/
def idxOf? (c : String) : List String → Option Nat
  | [] => none
  | a :: as => if a = c then some 0 else (idxOf? c as).map (· + 1)

/-- Cell lookup by column name (`NaN` for a column or position that is
absent, which only well-formedness theorems rely on). -/
def cellOf (cols : List String) (row : List Val) (c : String) : Val :=
  match idxOf? c cols with
  | some i => row.getD i Val.nan
  | none => Val.nan

def colVals (f : Frame) (c : String) : List Val :=
  f.rows.map fun r => cellOf f.cols r c

/-- pandas `isin` equality: `==`, except that `NaN` matches `NaN`. -/
def isinEq (a b : Val) : Bool :=
  pyEq a b || (a == Val.nan && b == Val.nan)

def pyIsin (v : Val) (vs : List Val) : Bool := vs.any (isinEq v)

/-- `df[cs]` — column selection; a missing label raises `KeyError`. -/
def selectCols (f : Frame) (cs : List String) : Except String Frame :=
  if cs.all (fun c => f.cols.contains c) then
    Except.ok ⟨cs, f.rows.map fun r => cs.map (cellOf f.cols r)⟩
  else Except.error "KeyError: column selection"

/-- The `merge_existing` argument of `hmerge`: `None`, `'all'`, or a list of
variable names (prep.py 1461-1463). -/
inductive MergeExisting where
  | nothing
  | all
  | listed (l : List String)
  deriving DecidableEq

/-- Python truthiness of `merge_existing` (prep.py 1544 `if merge_existing:`). -/
def mergeExistingActive : MergeExisting → Bool
  | MergeExisting.nothing => false
  | MergeExisting.all => true
  | MergeExisting.listed l => !l.isEmpty

/-- prep.py 1546: `merge_existing == 'all' or col in merge_existing`. -/
def mergeExistingCovers : MergeExisting → String → Bool
  | MergeExisting.nothing, _ => false
  | MergeExisting.all, _ => true
  | MergeExisting.listed l, c => l.contains c

/-- No two values are pandas-equal (index uniqueness for `update`). -/
def valsPairwiseDistinct : List Val → Bool
  | [] => true
  | v :: rest => !pyIsin v rest && valsPairwiseDistinct rest

/-- `DataFrame.update` cell rule: only non-`NaN` right values overwrite. -/
def updateCell (old new_ : Val) : Val :=
  match new_ with
  | Val.nan => old
  | v => v

/-- The known-column update block of `hmerge` (prep.py 1531-1555): re-key the
left rows by `left_on` and the sliced right rows by `right_on`; `update`
the non-delimited-set columns with the right's non-missing values; for
delimited-set columns covered by `merge_existing`, `combine` with
`_merge_delimited_sets(str(x) + str(y))` (prep.py 1550-1552) — uncovered
delimited-set columns are left untouched.  `update`/`combine` alignment on a
right key index with duplicate labels raises (`cannot reindex from a
duplicate axis`); the trailing `astype` (prep.py 1555) restores the original
dtype and is value-preserving here. -/
def hmergeUpdateStep (metaLeft : Meta) (dataL rSlice : Frame)
    (left_on right_on : String) (col_updates : List String)
    (merge_existing : MergeExisting) : Except String Frame :=
  if ¬ (col_updates.all fun c => dataL.cols.contains c) then
    Except.error "KeyError: column selection"
  else if ¬ (col_updates.all fun c => rSlice.cols.contains c) then
    Except.error "KeyError: column selection"
  else if ¬ valsPairwiseDistinct (colVals rSlice right_on) then
    Except.error "ValueError: cannot reindex from a duplicate axis"
  else
    let sets := col_updates.filter fun c =>
      (metaLeft.columns.lookup c).getD "" = "delimited set"
    Except.ok ⟨dataL.cols, dataL.rows.map fun r =>
      let k := cellOf dataL.cols r left_on
      let rr := rSlice.rows.find? fun rrow => isinEq k (cellOf rSlice.cols rrow right_on)
      dataL.cols.map fun c =>
        if col_updates.contains c then
          if sets.contains c then
            if mergeExistingActive merge_existing && mergeExistingCovers merge_existing c
            then
              let x := cellOf dataL.cols r c
              let y := match rr with
                | some rrow => cellOf rSlice.cols rrow c
                | none => Val.nan
              match mergeDelimitedSets (pyStr x ++ pyStr y) with
              | some sres => Val.s sres
              | none => Val.nan
            else cellOf dataL.cols r c
          else
            match rr with
            | some rrow => updateCell (cellOf dataL.cols r c) (cellOf rSlice.cols rrow c)
            | none => cellOf dataL.cols r c
        else cellOf dataL.cols r c⟩

/-- pandas `left.merge(right, left_on, right_on, how='left')`
(prep.py 1564-1568).  When the key names coincide the key column is
collapsed into one; other column names present on both sides receive the
standard `_x`/`_y` suffixes.  Each left row is kept once per matching right
row, or once with `NaN` fill when no right row matches.  Key matching uses
`isinEq`: pandas `_factorize_keys` remaps the `NaN` codes of both sides into
one shared NA group, so `NaN` keys join each other. -/
def mergeLeftJoin (l r : Frame) (lk rk : String) : Frame :=
  let rcols := if lk = rk then r.cols.filter (fun c => c ≠ rk) else r.cols
  let shared := rcols.filter fun c => l.cols.contains c
  let lcols := l.cols.map fun c => if shared.contains c then c ++ "_x" else c
  let rcolsSuffixed := rcols.map fun c => if shared.contains c then c ++ "_y" else c
  ⟨lcols ++ rcolsSuffixed,
   l.rows.flatMap fun lr =>
     let ms := r.rows.filter fun rr => isinEq (cellOf l.cols lr lk) (cellOf r.cols rr rk)
     if ms.isEmpty then [lr ++ rcols.map fun _ => Val.nan]
     else ms.map fun rr => lr ++ rcols.map (cellOf r.cols rr)⟩

/-- `DataFrame.drop(c, axis=1)` for a present column. -/
def dropCol (f : Frame) (c : String) : Frame :=
  match idxOf? c f.cols with
  | some i => ⟨f.cols.eraseIdx i, f.rows.map fun r => r.eraseIdx i⟩
  | none => f

/-- `DataFrame.rename(columns={old: new})`. -/
def renameCol (f : Frame) (old new_ : String) : Frame :=
  ⟨f.cols.map fun c => if c = old then new_ else c, f.rows⟩

/-- The data path of `hmerge` (prep.py 1430-1582) for one right dataset (the
source wraps a single `(meta, data)` tuple into a one-element list at
prep.py 1501; `verbose` output is ignored): validate the key arguments,
slice the right rows to keys present in the left (prep.py 1505-1506), merge
the metadata, fix up `col_updates` (prep.py 1520-1525 — note that
`col_updates.remove(left_on)` raises `ValueError` when the key is not an
updated column), update known columns, and left-join the new columns,
de-duplicating a doubled `right_on` key via the `_x`/`_y` rename-and-drop
(prep.py 1570-1575). -/
def hmerge_data (metaLeft metaRight : Meta) (dataLeft dataRight : Frame)
    (onkey left_on right_on : Option String) (from_set : Option String)
    (merge_existing : MergeExisting) : Except String Frame := do
  if onkey.isNone && left_on.isNone && right_on.isNone then
    Except.error ("TypeError: You must provide a column name for either 'on' or "
      ++ "both 'left_on' AND 'right_on'")
  else if onkey.isSome && (left_on.isSome || right_on.isSome) then
    Except.error ("ValueError: You cannot provide a value for both 'on' and "
      ++ "either/both 'left_on'/'right_on'.")
  else if onkey.isNone && (left_on.isNone || right_on.isNone) then
    Except.error ("TypeError: You must provide a column name for both 'left_on' "
      ++ "AND 'right_on'")
  else Except.ok ()
  let lo := match onkey with | some k => k | none => left_on.getD ""
  let ro := match onkey with | some k => k | none => right_on.getD ""
  if ¬ dataLeft.cols.contains lo then
    Except.error ("KeyError: '" ++ lo ++ "'")
  else if ¬ dataRight.cols.contains ro then
    Except.error ("KeyError: '" ++ ro ++ "'")
  else Except.ok ()
  let rSlice : Frame := ⟨dataRight.cols, dataRight.rows.filter fun r =>
    pyIsin (cellOf dataRight.cols r ro) (colVals dataLeft lo)⟩
  let fs := from_set.getD "data file"
  let mm ← merge_meta metaLeft metaRight fs
  let cols := mm.1
  let col_updates0 := mm.2
  let col_updates ← if lo = ro then
      if col_updates0.contains lo then Except.ok (col_updates0.erase lo)
      else Except.error "ValueError: list.remove(x): x not in list"
    else Except.ok col_updates0
  let update_right_on := decide (lo ≠ ro) && col_updates.contains ro
  let dataL2 ← if col_updates.isEmpty then Except.ok dataLeft
    else hmergeUpdateStep metaLeft dataLeft rSlice lo ro col_updates merge_existing
  let new_cols0 := cols.filter fun c => ¬ col_updates.contains c
  let new_cols := if update_right_on then new_cols0 ++ [ro] else new_cols0
  let rSub ← selectCols rSlice new_cols
  let merged := mergeLeftJoin dataL2 rSub lo ro
  if update_right_on then
    Except.ok (dropCol (renameCol merged (ro ++ "_x") ro) (ro ++ "_y"))
  else Except.ok merged

/-! ## The vertical merge `vmerge` (prep.py 1584-1822)

The embedding covers a single `(left, right)` pair with
`row_id_name=None` (the `datasets` chaining of prep.py 1649-1681 is a left
fold of this function, and the row-id machinery of prep.py 1722-1777 only
adds an extra column independent of the append-or-skip behaviour under
scrutiny).  `reset_index` renumbers the positional index and is the identity
on this positional model. -/

/-- `get_columns_from_set` / `get_columns_from_mask` (prep.py 1308-1348):
recursively resolve a reference list to column names.  The Python recurses
without a visited set and would not terminate on a cyclic document; the
embedding uses explicit fuel, with fuel exhaustion as `RecursionError`.
(The source uniquifies at every `sets` level; uniquifying once at the outer
level gives the same list because first-occurrence de-duplication is
idempotent.) -/
def getColumnsFromRefs (meta : Meta) : Nat → List String → Except String (List String)
  | 0, _ => Except.error "RecursionError: maximum recursion depth exceeded"
  | fuel + 1, items => items.foldlM (fun acc item =>
      match splitAt2 item with
      | none => Except.error ("ValueError: cannot unpack '" ++ item ++ "'")
      | some (source, name) =>
          if source = "columns" then Except.ok (acc ++ [name])
          else if source = "masks" then
            match meta.masks.lookup name with
            | none => Except.error ("KeyError: masks '" ++ name ++ "'")
            | some mitems => do
                let sub ← getColumnsFromRefs meta fuel mitems
                Except.ok (acc ++ sub)
          else if source = "sets" then
            match meta.sets.lookup name with
            | none => Except.error ("KeyError: sets '" ++ name ++ "'")
            | some sitems => do
                let sub ← getColumnsFromRefs meta fuel sitems
                Except.ok (acc ++ sub)
          else Except.error ("KeyError: Unsupported meta-mapping: " ++ item)) []

def get_columns_from_set (meta : Meta) (set_name : String) (fuel : Nat) :
    Except String (List String) :=
  match meta.sets.lookup set_name with
  | none => Except.error ("KeyError: sets '" ++ set_name ++ "'")
  | some items => do
      let cols ← getColumnsFromRefs meta fuel items
      Except.ok (uniquify_list cols)

/-- Effectful map over a list in the `Except` monad (structural recursion,
kernel-evaluable). -/
def mapExcept {α β : Type} (f : α → Except String β) : List α → Except String (List β)
  | [] => Except.ok []
  | a :: as => do
      let b ← f a
      let bs ← mapExcept f as
      Except.ok (b :: bs)

/-- The numeric-to-delimited-set upcast of `vmerge` (prep.py 1796-1800): a
right column whose left type is `delimited set` but right type is not gets
each value rewritten to `str(int(x)) + ';'`; `np.isnan` on a string cell
raises `TypeError`. -/
def convertRightCols (metaLeft metaRight : Meta) (f : Frame) :
    Except String Frame := do
  let colsConv ← f.cols.foldlM (fun (acc : List String) c =>
      if (metaLeft.columns.lookup c).getD "" = "delimited set" then
        match metaRight.columns.lookup c with
        | none => Except.error ("KeyError: columns '" ++ c ++ "'")
        | some rt =>
            if rt = "delimited set" then Except.ok acc else Except.ok (acc ++ [c])
      else Except.ok acc) []
  let rows ← mapExcept (fun r => mapExcept (fun p =>
      if colsConv.contains p.1 then
        match p.2 with
        | Val.nan => Except.ok Val.nan
        | Val.i n => Except.ok (Val.s (toString n ++ ";"))
        | Val.s _ => Except.error "TypeError: must be real number, not str"
      else Except.ok p.2) (f.cols.zip r)) f.rows
  Except.ok ⟨f.cols, rows⟩

/-- `pd.concat([left, right], sort=True)` (prep.py 1802-1805): the union of
the column sets, sorted; left rows above right rows; `NaN` where a frame
lacks a column. -/
def concatFrames (l r : Frame) : Frame :=
  let ucols := pySorted (pyDedup (l.cols ++ r.cols))
  ⟨ucols,
   l.rows.map (fun row => ucols.map (cellOf l.cols row))
     ++ r.rows.map (fun row => ucols.map (cellOf r.cols row))⟩

/-- The data path of `vmerge` (prep.py 1683-1822) for one `(left, right)`
pair without a `row_id_name`.  Key validation follows prep.py 1683-1698;
prep.py 1703-1720 then checks `left_on` *and* `right_on` against the LEFT
data and LEFT meta (the messages say "right" but the lookups interrogate the
left); after the metadata merge, prep.py 1791-1793 drops right rows via
`data_right[left_on].isin(data_left[right_on])` — the column names are
swapped between the two datasets; then right numeric columns are upcast
where the left is a delimited set, the frames are concatenated, and the
columns are restricted to the left columns followed by the right
`from_set` resolution. -/
def vmerge_data (metaLeft metaRight : Meta) (dataLeft dataRight : Frame)
    (onkey left_on right_on : Option String) (from_set : String) (fuel : Nat) :
    Except String Frame := do
  let blind := onkey.isNone && left_on.isNone && right_on.isNone
  if blind then Except.ok ()
  else if onkey.isNone && (left_on.isNone || right_on.isNone) then
    Except.error ("ValueError: You may not provide a value for only one of"
      ++ "'left_on'/'right_on'.")
  else if onkey.isSome && (left_on.isSome || right_on.isSome) then
    Except.error ("ValueError: You cannot provide a value for both 'on' and "
      ++ "either/both 'left_on'/'right_on'.")
  else Except.ok ()
  let lo := match onkey with | some k => k | none => left_on.getD ""
  let ro := match onkey with | some k => k | none => right_on.getD ""
  if blind then Except.ok ()
  else if ¬ dataLeft.cols.contains lo then
    Except.error ("KeyError: '" ++ lo ++ "' not found in the left data.")
  else if (metaLeft.columns.lookup lo).isNone then
    Except.error ("KeyError: '" ++ lo ++ "' not found in the left meta.")
  else if ¬ dataLeft.cols.contains ro then
    Except.error ("KeyError: '" ++ ro ++ "' not found in the right data.")
  else if (metaLeft.columns.lookup ro).isNone then
    Except.error ("KeyError: '" ++ ro ++ "' not found in the right meta.")
  else Except.ok ()
  let _ ← merge_meta metaLeft metaRight from_set
  let dataRight2 ← if blind then Except.ok dataRight
    else if ¬ dataRight.cols.contains lo then
      Except.error ("KeyError: '" ++ lo ++ "'")
    else Except.ok (⟨dataRight.cols, dataRight.rows.filter fun r =>
      !(pyIsin (cellOf dataRight.cols r lo) (colVals dataLeft ro))⟩ : Frame)
  let dataRight3 ← convertRightCols metaLeft metaRight dataRight2
  let vdata := concatFrames dataLeft dataRight3
  let setCols ← get_columns_from_set metaRight from_set fuel
  let col_slicer := dataLeft.cols ++ setCols.filter fun c => ¬ dataLeft.cols.contains c
  selectCols vdata col_slicer

/-! ## `index_mapper` (prep.py 733-803)

The mapper values are bare Python lists or `{column: logic}` dicts (logic
tuples built by `has_any` behave like the dict form once keyed).  The logic
resolution itself (`has_any`, `get_logic_index`) lives in
`quantipy/core/tools/view/logic.py`, which is not under src/, so its
evaluation is modelled from the spec; the dict payloads are restricted to
the atomic `has_any` condition, the only one any claim exercises.
`intersect=None` (the default, used by every claim) is assumed. -/

inductive MapVal where
  | pyList (codes : List Int)
  | pyDict (col : String) (codes : List Int)
  deriving DecidableEq

def isPyList : MapVal → Bool
  | MapVal.pyList _ => true
  | _ => false

/-- Modelled from the spec: the atomic condition "has any of these codes"
(spec §4.1) of `has_any` from `quantipy.core.tools.view.logic` (not under
src/) holds for a numeric cell contained in the code list and for a
delimited-set cell one of whose `';'`-separated tokens is in the list;
a missing cell never matches. -/
def hasAnyVal (v : Val) (codes : List Int) : Bool :=
  match v with
  | Val.i n => codes.contains n
  | Val.s st => ((pySplitChar ';' st).filterMap String.toInt?).any fun t =>
      codes.contains t
  | Val.nan => false

/-- Modelled from the spec: `get_logic_index` (spec §4.1, not under src/)
resolves a column-scoped `has_any` condition to the matching row positions. -/
def selectRows (data : Frame) (col : String) (codes : List Int) : List Nat :=
  (List.range data.rows.length).filter fun r =>
    hasAnyVal (cellOf data.cols (data.rows.getD r []) col) codes

/-- `index_mapper(meta, data, mapper, default=None)` (prep.py 733-803).
With `default=None`, prep.py 761-770 raises `TypeError` at the first mapper
value that is not a dict or tuple — in particular at a bare list — before
any index is computed.  With a `default` column, prep.py 772-782 rewrites a
bare list `val` to `{default: has_any(val)}` and wraps other values under
the default key; each entry is then resolved to a row index
(prep.py 793-801).  The `pyList` arm of the `default=None` success branch is
unreachable (guarded by the `find?`). -/
def index_mapper (data : Frame) (mapper : List (Int × MapVal)) :
    Option String → Except String (List (Int × List Nat))
  | none =>
      match mapper.find? (fun kv => isPyList kv.2) with
      | some kv => Except.error ("TypeError: '" ++ toString kv.1
          ++ "' recode definition appears to be using default-shorthand but no "
          ++ "value for 'default' was given.")
      | none => Except.ok (mapper.map fun kv => (kv.1,
          match kv.2 with
          | MapVal.pyDict col codes => selectRows data col codes
          | MapVal.pyList _ => []))
  | some d => Except.ok (mapper.map fun kv => (kv.1,
      match kv.2 with
      | MapVal.pyList codes => selectRows data d codes
      | MapVal.pyDict col codes => selectRows data col codes))

/-! ## Basic lemmas about the value model -/

theorem pyEq_eq_true_iff (a b : Val) : pyEq a b = true ↔ a = b ∧ a ≠ Val.nan := by
  cases a <;> cases b <;> simp [pyEq]

theorem pyEq_nan_left (b : Val) : pyEq Val.nan b = false := by cases b <;> rfl

theorem pyEq_refl (a : Val) (h : a ≠ Val.nan) : pyEq a a = true := by
  cases a <;> simp [pyEq] at h ⊢

theorem isinEq_eq_true_iff (a b : Val) : isinEq a b = true ↔ a = b := by
  cases a <;> cases b <;> simp [isinEq, pyEq]

/-! ## Lemmas about the condense pipeline -/

theorem applymapCell_no (yes no : Val) : applymapCell yes no no = no := by
  unfold applymapCell; split <;> rfl

theorem applymapCell_other {yes no x : Val} (h1 : pyEq x yes = false)
    (h2 : pyEq x no = false) : applymapCell yes no x = no := by
  unfold applymapCell; rw [h1, h2]; rfl

theorem applymapCell_not_yes {yes no x : Val} (h1 : pyEq x yes = false) :
    applymapCell yes no x = no := by
  unfold applymapCell
  rw [h1]
  cases h2 : pyEq x no with
  | true =>
      obtain ⟨rfl, -⟩ := (pyEq_eq_true_iff x no).mp h2
      rfl
  | false => rfl

theorem replaceNoMap_id {no : Val} {s : String} (h1 : s ≠ "nan")
    (h2 : s ≠ pyStr no ++ ".0") (h3 : s ≠ pyStr no) : replaceNoMap no s = s :=
  if_neg (by push_neg; exact ⟨h1, h2, h3⟩)

theorem replaceNoMap_no (no : Val) : replaceNoMap no (pyStr no) = "nan" :=
  if_pos (Or.inr (Or.inr rfl))

theorem replaceYesMap_yes (yes : Val) (code : String) :
    replaceYesMap yes code (pyStr yes) = code :=
  if_pos (Or.inl rfl)

theorem replaceYesMap_id {yes : Val} (code : String) {s : String}
    (h1 : s ≠ pyStr yes) (h2 : s ≠ pyStr yes ++ ".0") : replaceYesMap yes code s = s :=
  if_neg (by push_neg; exact ⟨h1, h2⟩)

theorem cellResult_of_yes {yes no : Val} (code : String) {x : Val}
    (hx : pyEq x yes = true) (hy1 : pyStr yes ≠ "nan") (hy2 : pyStr yes ≠ pyStr no)
    (hy3 : pyStr yes ≠ pyStr no ++ ".0") : cellResult yes no code x = code := by
  obtain ⟨rfl, hnn⟩ := (pyEq_eq_true_iff x yes).mp hx
  unfold cellResult
  rw [show applymapCell x no x = x by unfold applymapCell; rw [pyEq_refl x hnn]; rfl]
  unfold replCell
  rw [replaceNoMap_id hy1 hy3 hy2, replaceYesMap_yes]

theorem cellResult_of_not_yes {yes no : Val} (code : String) {x : Val}
    (hx : pyEq x yes = false) (hy1 : pyStr yes ≠ "nan")
    (hn1 : pyStr yes ++ ".0" ≠ "nan") : cellResult yes no code x = "nan" := by
  unfold cellResult
  rw [applymapCell_not_yes hx]
  unfold replCell
  rw [replaceNoMap_no, replaceYesMap_id code (Ne.symm hy1) (Ne.symm hn1)]

/-- With no `yes`-valued cells every processed cell string is `'nan'` and is
filtered out of the join. -/
theorem cells_filter_of_no_yes {yes no : Val}
    (hy1 : pyStr yes ≠ "nan") (hn1 : pyStr yes ++ ".0" ≠ "nan") :
    ∀ (codes : List String) (row : List Val), (∀ x ∈ row, pyEq x yes = false) →
    (List.zipWith (cellResult yes no) codes row).filter (fun s => s ≠ "nan") = [] := by
  intro codes
  induction codes with
  | nil => intro row _; simp
  | cons c cs ih =>
      intro row hrow
      cases row with
      | nil => simp
      | cons x xs =>
          rw [List.zipWith_cons_cons,
            cellResult_of_not_yes c (hrow x (List.mem_cons_self x xs)) hy1 hn1,
            List.filter_cons_of_neg (by simp)]
          exact ih xs fun y hy => hrow y (List.mem_cons_of_mem x hy)

/-- Characterization of the filtered cell strings: exactly the codes of the
`yes`-valued columns, in column order. -/
theorem cells_filter_eq {yes no : Val}
    (hy1 : pyStr yes ≠ "nan") (hy2 : pyStr yes ≠ pyStr no)
    (hy3 : pyStr yes ≠ pyStr no ++ ".0") (hn1 : pyStr yes ++ ".0" ≠ "nan") :
    ∀ (codes : List String) (row : List Val), (∀ c ∈ codes, c ≠ "nan") →
    (List.zipWith (cellResult yes no) codes row).filter (fun s => s ≠ "nan")
      = ((codes.zip row).filter fun p => pyEq p.2 yes).map Prod.fst := by
  intro codes
  induction codes with
  | nil => intro row _; simp
  | cons c cs ih =>
      intro row hc
      cases row with
      | nil => simp
      | cons x xs =>
          rw [List.zipWith_cons_cons, List.zip_cons_cons]
          have hcs : ∀ a ∈ cs, a ≠ "nan" := fun a ha => hc a (List.mem_cons_of_mem c ha)
          cases hx : pyEq x yes with
          | true =>
              rw [cellResult_of_yes c hx hy1 hy2 hy3,
                List.filter_cons_of_pos (by simpa using hc c (List.mem_cons_self c cs)),
                List.filter_cons_of_pos (by simpa using hx), List.map_cons,
                ih xs hcs]
          | false =>
              rw [cellResult_of_not_yes c hx hy1 hn1,
                List.filter_cons_of_neg (by simp),
                List.filter_cons_of_neg (by simp [hx]),
                ih xs hcs]

theorem string_eq_empty_of_length_zero {s : String} (h : s.length = 0) : s = "" := by
  cases s with
  | mk data =>
      cases data with
      | nil => rfl
      | cons c cs =>
          have : (String.mk (c :: cs)).length = cs.length + 1 := rfl
          omega

theorem append_semi_eq_semi_iff (s : String) : s ++ ";" = ";" ↔ s = "" := by
  constructor
  · intro h
    have hl := congrArg String.length h
    rw [String.length_append] at hl
    have : s.length = 0 := by omega
    exact string_eq_empty_of_length_zero this
  · intro h; rw [h]; rfl

theorem append_semi_ne_empty (s : String) : s ++ ";" ≠ "" := by
  intro h
  have hl := congrArg String.length h
  rw [String.length_append] at hl
  have h1 : (";" : String).length = 1 := rfl
  have h0 : ("" : String).length = 0 := rfl
  omega

theorem joinWith_semi_ne_empty : ∀ (l : List String), l ≠ [] → (∀ c ∈ l, c ≠ "") →
    joinWith ";" l ≠ "" := by
  intro l
  cases l with
  | nil => intro h; exact absurd rfl h
  | cons c cs =>
      intro _ hc
      cases cs with
      | nil => exact hc c (List.mem_cons_self c [])
      | cons d ds =>
          show c ++ ";" ++ joinWith ";" (d :: ds) ≠ ""
          intro h
          have hl := congrArg String.length h
          rw [String.length_append, String.length_append] at hl
          have h1 : (";" : String).length = 1 := rfl
          have h0 : ("" : String).length = 0 := rfl
          omega

/-- Shared helper: a row with no `yes`-valued cell condenses to `NaN`. -/
theorem condenseRow_of_no_yes {cols : List String} {vfl : Bool} {yes no : Val}
    {row : List Val} (hy1 : pyStr yes ≠ "nan") (hn1 : pyStr yes ++ ".0" ≠ "nan")
    (hrow : ∀ x ∈ row, pyEq x yes = false) :
    condenseRow cols vfl yes no row = none := by
  simp only [condenseRow]
  rw [cells_filter_of_no_yes hy1 hn1 (codesList cols vfl) row hrow]
  simp [joinWith]

/-- C2 counterexample: the claim says `condense_dichotomous_set` sorts the
selected codes ascending, but the source joins the cells in input-column
order (prep.py 327-334); with columns `q_3, q_1` and row `[1, 1]` it yields
`"3;1;"`, not the sorted `"1;3;"`. -/
theorem condense_sorted_codes_counterexample :
    condenseRow ["q_3", "q_1"] true (Val.i 1) (Val.i 0) [Val.i 1, Val.i 1]
      = some "3;1;" ∧
    condenseRowSpecSorted ["q_3", "q_1"] true (Val.i 1) (Val.i 0) [Val.i 1, Val.i 1]
      = some "1;3;" ∧
    condenseRow ["q_3", "q_1"] true (Val.i 1) (Val.i 0) [Val.i 1, Val.i 1]
      ≠ condenseRowSpecSorted ["q_3", "q_1"] true (Val.i 1) (Val.i 0)
          [Val.i 1, Val.i 1] :=
  ⟨by decide, by decide, by decide⟩

/-- C2 (amended): for every dichotomous input row, `condense_dichotomous_set`
maps each `yes`-valued column to its code (the column-name suffix after the
last underscore when `values_from_labels`, sequential `1..N` otherwise),
keeps the selected codes in input-column order (it does not re-sort them),
joins them with `';'` and appends a trailing `';'`; in particular a row
`[1, 0, 1]` over columns `q_1, q_2, q_3` yields `"1;3;"`.  The hypotheses
exclude degenerate parameterizations in which the string form of `yes`
collides with the `'nan'` marker or with the string forms of `no`, and
columns whose derived code is `''` or `'nan'`. -/
theorem condense_joins_codes_in_column_order
    (cols : List String) (vfl : Bool) (yes no : Val) (row : List Val)
    (hy1 : pyStr yes ≠ "nan") (hy2 : pyStr yes ≠ pyStr no)
    (hy3 : pyStr yes ≠ pyStr no ++ ".0") (hn1 : pyStr yes ++ ".0" ≠ "nan")
    (hc : ∀ c ∈ codesList cols vfl, c ≠ "nan" ∧ c ≠ "") :
    condenseRow cols vfl yes no row = condenseRowColOrder cols vfl yes no row ∧
    condenseRow ["q_1", "q_2", "q_3"] true (Val.i 1) (Val.i 0)
      [Val.i 1, Val.i 0, Val.i 1] = some "1;3;" := by
  refine ⟨?_, by decide⟩
  simp only [condenseRow, condenseRowColOrder]
  rw [cells_filter_eq hy1 hy2 hy3 hn1 (codesList cols vfl) row (fun c h => (hc c h).1)]
  by_cases h : (((codesList cols vfl).zip row).filter fun p => pyEq p.2 yes).map
      Prod.fst = []
  · rw [h]; simp [joinWith]
  · rw [if_neg h, if_neg ?_]
    intro hx
    have hempty := (append_semi_eq_semi_iff _).mp hx
    refine joinWith_semi_ne_empty _ h ?_ hempty
    intro c hcmem
    obtain ⟨p, hp, rfl⟩ := List.mem_map.mp hcmem
    have hpz := (List.mem_filter.mp hp).1
    exact (hc p.1 (List.of_mem_zip hpz).1).2

/-- Witness for `condense_joins_codes_in_column_order` at a concrete input. -/
theorem condense_joins_codes_in_column_order_witness :
    condenseRow ["q_3", "q_1"] true (Val.i 1) (Val.i 0) [Val.i 1, Val.i 1]
      = condenseRowColOrder ["q_3", "q_1"] true (Val.i 1) (Val.i 0)
          [Val.i 1, Val.i 1] ∧
    condenseRow ["q_1", "q_2", "q_3"] true (Val.i 1) (Val.i 0)
      [Val.i 1, Val.i 0, Val.i 1] = some "1;3;" :=
  condense_joins_codes_in_column_order ["q_3", "q_1"] true (Val.i 1) (Val.i 0)
    [Val.i 1, Val.i 1] (by decide) (by decide) (by decide) (by decide) (by decide)

/-- C3: a row of `condense_dichotomous_set`'s input in which no column equals
`yes` produces a missing value (never the empty string) in the output; a
frame in which every cell is missing condenses to an all-missing series
without error; and no output cell is ever the empty string. -/
theorem condense_empty_rows_are_missing :
    (∀ (cols : List String) (vfl : Bool) (yes no : Val) (row : List Val),
        pyStr yes ≠ "nan" → pyStr yes ++ ".0" ≠ "nan" →
        (∀ x ∈ row, pyEq x yes = false) →
        condenseRow cols vfl yes no row = none) ∧
    (∀ (cols : List String) (vfl : Bool) (yes no : Val) (rows : List (List Val)),
        pyStr yes ≠ "nan" → pyStr yes ++ ".0" ≠ "nan" →
        (∀ row ∈ rows, ∀ x ∈ row, x = Val.nan) →
        condense_dichotomous_set cols rows vfl yes no = rows.map fun _ => none) ∧
    (∀ (cols : List String) (vfl : Bool) (yes no : Val) (row : List Val),
        condenseRow cols vfl yes no row ≠ some "") := by
  refine ⟨fun cols vfl yes no row hy1 hn1 hrow => condenseRow_of_no_yes hy1 hn1 hrow,
    fun cols vfl yes no rows hy1 hn1 hrows => ?_,
    fun cols vfl yes no row => ?_⟩
  · unfold condense_dichotomous_set
    apply List.map_congr_left
    intro r hr
    refine condenseRow_of_no_yes hy1 hn1 fun x hx => ?_
    rw [hrows r hr x hx]
    exact pyEq_nan_left yes
  · simp only [condenseRow]
    split
    · exact fun h => Option.noConfusion h
    · intro h
      exact append_semi_ne_empty _ (Option.some.inj h)

/-- Witness for `condense_empty_rows_are_missing` at concrete inputs. -/
theorem condense_empty_rows_are_missing_witness :
    condenseRow ["q_1"] true (Val.i 1) (Val.i 0) [Val.nan] = none ∧
    condense_dichotomous_set ["q_1", "q_2"] [[Val.nan, Val.nan], [Val.nan, Val.nan]]
        true (Val.i 1) (Val.i 0) = [none, none] ∧
    condenseRow ["q_1"] true (Val.i 1) (Val.i 0) [Val.i 1] ≠ some "" :=
  ⟨condense_empty_rows_are_missing.1 ["q_1"] true (Val.i 1) (Val.i 0) [Val.nan]
      (by decide) (by decide) (by decide),
   condense_empty_rows_are_missing.2.1 ["q_1", "q_2"] true (Val.i 1) (Val.i 0)
      [[Val.nan, Val.nan], [Val.nan, Val.nan]] (by decide) (by decide) (by decide),
   condense_empty_rows_are_missing.2.2 ["q_1"] true (Val.i 1) (Val.i 0) [Val.i 1]⟩

theorem zipWith_set_right_congr {α β γ : Type} (f : α → β → γ) (a b : β)
    (h : ∀ c, f c a = f c b) :
    ∀ (l : List α) (r : List β) (i : Nat),
    List.zipWith f l (r.set i a) = List.zipWith f l (r.set i b) := by
  intro l
  induction l with
  | nil => intro r i; simp
  | cons x xs ih =>
      intro r i
      cases r with
      | nil => simp
      | cons y ys =>
          cases i with
          | zero =>
              rw [List.set_cons_zero, List.set_cons_zero, List.zipWith_cons_cons,
                List.zipWith_cons_cons, h x]
          | succ n =>
              rw [List.set_cons_succ, List.set_cons_succ, List.zipWith_cons_cons,
                List.zipWith_cons_cons, ih ys n]

/-- C10: `condense_dichotomous_set` treats every cell value that is neither
the `yes` value nor the `no` value (e.g. `2`, a string, or `NaN`) exactly as
if it were `no` (prep.py 292-293), so such cells never contribute a code to
the resulting delimited-set string. -/
theorem condense_treats_other_values_as_no
    (cols : List String) (vfl : Bool) (yes no : Val) (row : List Val) (i : Nat)
    (x : Val) (hx1 : pyEq x yes = false) (hx2 : pyEq x no = false) :
    condenseRow cols vfl yes no (row.set i x)
      = condenseRow cols vfl yes no (row.set i no) := by
  have hcell : ∀ c, cellResult yes no c x = cellResult yes no c no := by
    intro c
    unfold cellResult
    rw [applymapCell_other hx1 hx2, applymapCell_no]
  simp only [condenseRow]
  rw [zipWith_set_right_congr _ x no hcell]

/-- Witness for `condense_treats_other_values_as_no` at a concrete input:
the stray value `2` and the string `"noise"` act like `no`. -/
theorem condense_treats_other_values_as_no_witness :
    condenseRow ["q_1", "q_2"] true (Val.i 1) (Val.i 0)
        ([Val.i 1, Val.i 0].set 1 (Val.s "noise"))
      = condenseRow ["q_1", "q_2"] true (Val.i 1) (Val.i 0)
        ([Val.i 1, Val.i 0].set 1 (Val.i 0)) ∧
    condenseRow ["q_1", "q_2"] true (Val.i 1) (Val.i 0)
        ([Val.i 1, Val.i 0].set 1 (Val.s "noise")) = some "1;" :=
  ⟨condense_treats_other_values_as_no ["q_1", "q_2"] true (Val.i 1) (Val.i 0)
      [Val.i 1, Val.i 0] 1 (Val.s "noise") (by decide) (by decide), by decide⟩

/-! ## Lemmas for the recode guard (claim C1) -/

/-- A condensed cell is never the empty string: any `some` output carries the
trailing `';'`. -/
theorem condenseRow_ne_some_empty (cols : List String) (vfl : Bool) (yes no : Val)
    (row : List Val) : condenseRow cols vfl yes no row ≠ some "" := by
  simp only [condenseRow]
  split
  · exact fun h => Option.noConfusion h
  · intro h
    exact append_semi_ne_empty _ (Option.some.inj h)

theorem condensedMapperSeries_ne_some_empty (metaVals : List Int) (n : Nat)
    (mapper : List (Int × List Nat)) :
    ∀ c ∈ condensedMapperSeries metaVals n mapper, c ≠ some "" := by
  intro c hc
  obtain ⟨i, _, rfl⟩ := List.mem_map.mp hc
  exact condenseRow_ne_some_empty _ _ _ _ _

theorem condensedMapperSeries_length (metaVals : List Int) (n : Nat)
    (mapper : List (Int × List Nat)) :
    (condensedMapperSeries metaVals n mapper).length = n := by
  simp [condensedMapperSeries]

/-- In overwrite mode, if the joined series is entirely missing then it is
the seed itself (provided neither operand carries a literal `''` cell). -/
theorem overwrite_join_all_none_eq_seed :
    ∀ (seed s2 : List (Option String)), s2.length = seed.length →
    (∀ c ∈ seed, c ≠ some "") → (∀ c ∈ s2, c ≠ some "") →
    (join_delimited_set_series seed s2 false).all (fun c => c = none) = true →
    join_delimited_set_series seed s2 false = seed := by
  intro seed
  induction seed with
  | nil => intro s2 _ _ _ _; simp [join_delimited_set_series]
  | cons a as ih =>
      intro s2 hlen hseed hs2 hall
      cases s2 with
      | nil => exact absurd hlen (by simp)
      | cons b bs =>
          cases b with
          | some y =>
              exfalso
              have hy : y ≠ "" := fun h =>
                hs2 (some y) (List.mem_cons_self _ _) (by rw [h])
              have hcons : join_delimited_set_series (a :: as) (some y :: bs) false
                  = (if (some y : Option String) = some "" then none else some y)
                    :: join_delimited_set_series as bs false := rfl
              rw [hcons, List.all_cons, Bool.and_eq_true] at hall
              obtain ⟨hhead, -⟩ := hall
              rw [if_neg (fun h => hy (Option.some.inj h))] at hhead
              exact Option.noConfusion (of_decide_eq_true hhead)
          | none =>
              have hcons : join_delimited_set_series (a :: as) (none :: bs) false
                  = (if a = some "" then none else a)
                    :: join_delimited_set_series as bs false := rfl
              rw [hcons, List.all_cons, Bool.and_eq_true] at hall
              obtain ⟨-, htail⟩ := hall
              rw [hcons, if_neg (hseed a (List.mem_cons_self a as))]
              rw [ih bs (by simpa using hlen)
                (fun c hc => hseed c (List.mem_cons_of_mem a hc))
                (fun c hc => hs2 c (List.mem_cons_of_mem none hc)) htail]

/-- C1 counterexample: with `append=True` and an index mapper that selects
no rows, the join `ds1 + ds2` propagates the `NaN` of the new data into
every row (prep.py 837), so the guard at prep.py 895-898 warns and returns
an all-missing series — the pre-existing seed cell `"1;"` is cleared, not
preserved as the claim states. -/
theorem recode_empty_append_clears_seed_counterexample :
    recode_from_index_mapper_ds [] [some "1;"] [(2, [])] true
      = { series := [none], warned := true } ∧
    ([some "1;"] : List (Option String)) ≠ [none] :=
  ⟨by decide, by decide⟩

/-- C1 (amended): when a delimited-set recode's joined result contains no
non-missing rows, `recode_from_index_mapper` emits a warning (not an error)
and returns the joined series; in overwrite mode (`append=False`, the
`recode` default) and for a seed with no literal `''` cells this joined
series *is* the seeded series, so the pre-existing data is returned
unchanged.  (In append mode the joined series can instead be all-missing
even though the seed was not — see the counterexample.) -/
theorem recode_empty_overwrite_returns_seed
    (metaVals : List Int) (seed : List (Option String))
    (mapper : List (Int × List Nat))
    (hseed : ∀ c ∈ seed, c ≠ some "")
    (hempty : (joinedOf metaVals seed mapper false).all (fun c => c = none) = true) :
    recode_from_index_mapper_ds metaVals seed mapper false
      = { series := seed, warned := true } := by
  have hjoined : joinedOf metaVals seed mapper false = seed := by
    unfold joinedOf
    refine overwrite_join_all_none_eq_seed seed _
      (condensedMapperSeries_length _ _ _) hseed
      (condensedMapperSeries_ne_some_empty _ _ _) ?_
    unfold joinedOf at hempty
    exact hempty
  unfold recode_from_index_mapper_ds
  rw [if_pos hempty, hjoined]

/-- Witness for `recode_empty_overwrite_returns_seed` at a concrete input. -/
theorem recode_empty_overwrite_returns_seed_witness :
    recode_from_index_mapper_ds [] [none] [(2, [])] false
      = { series := [none], warned := true } :=
  recode_empty_overwrite_returns_seed [] [none] [(2, [])] (by decide) (by decide)

/-! ## Lemmas about sorting and de-duplication -/

theorem charListLe_total : ∀ a b : List Char,
    charListLe a b = true ∨ charListLe b a = true := by
  intro a
  induction a with
  | nil => intro b; left; rfl
  | cons x xs ih =>
      intro b
      cases b with
      | nil => right; rfl
      | cons y ys =>
          by_cases hlt : x.toNat < y.toNat
          · left; simp [charListLe, hlt]
          · by_cases heq : x.toNat = y.toNat
            · cases ih ys with
              | inl h =>
                  left
                  simp only [charListLe]
                  rw [if_neg hlt, if_pos heq]
                  exact h
              | inr h =>
                  right
                  simp only [charListLe]
                  rw [if_neg (by omega), if_pos (by omega)]
                  exact h
            · right
              simp only [charListLe]
              rw [if_pos (by omega)]

theorem charListLe_trans : ∀ a b c : List Char,
    charListLe a b = true → charListLe b c = true → charListLe a c = true := by
  intro a
  induction a with
  | nil => intro b c _ _; rfl
  | cons x xs ih =>
      intro b c hab hbc
      cases b with
      | nil => exact absurd hab (by simp [charListLe])
      | cons y ys =>
          cases c with
          | nil => exact absurd hbc (by simp [charListLe])
          | cons z zs =>
              simp only [charListLe] at hab hbc ⊢
              split at hab
              next hxy =>
                split at hbc
                next hyz => rw [if_pos (by omega)]
                next hyz =>
                  split at hbc
                  next hyz2 => rw [if_pos (by omega)]
                  next => exact absurd hbc (by simp)
              next hxy =>
                split at hab
                next hxy2 =>
                  split at hbc
                  next hyz => rw [if_pos (by omega)]
                  next hyz =>
                    split at hbc
                    next hyz2 =>
                        rw [if_neg (by omega), if_pos (by omega)]
                        exact ih ys zs hab hbc
                    next => exact absurd hbc (by simp)
                next => exact absurd hab (by simp)

theorem strLe_total (a b : String) : strLe a b = true ∨ strLe b a = true :=
  charListLe_total a.data b.data

theorem strLe_trans {a b c : String} (h1 : strLe a b = true)
    (h2 : strLe b c = true) : strLe a c = true :=
  charListLe_trans a.data b.data c.data h1 h2

theorem mem_insertSorted {a x : String} : ∀ {l : List String},
    a ∈ insertSorted x l ↔ a = x ∨ a ∈ l := by
  intro l
  induction l with
  | nil => simp [insertSorted]
  | cons y ys ih =>
      simp only [insertSorted]
      split
      · simp [List.mem_cons]
      · simp only [List.mem_cons, ih]
        tauto

theorem pairwise_insertSorted (x : String) : ∀ {l : List String},
    l.Pairwise (fun a b => strLe a b = true) →
    (insertSorted x l).Pairwise (fun a b => strLe a b = true) := by
  intro l
  induction l with
  | nil => intro _; simp [insertSorted]
  | cons y ys ih =>
      intro h
      rw [List.pairwise_cons] at h
      obtain ⟨hy, hys⟩ := h
      simp only [insertSorted]
      split
      next hxy =>
        rw [List.pairwise_cons]
        refine ⟨?_, List.pairwise_cons.mpr ⟨hy, hys⟩⟩
        intro z hz
        rcases List.mem_cons.mp hz with rfl | hz2
        · exact hxy
        · exact strLe_trans hxy (hy z hz2)
      next hxy =>
        have hyx : strLe y x = true := by
          cases strLe_total x y with
          | inl h2 => exact absurd h2 (by simpa using hxy)
          | inr h2 => exact h2
        rw [List.pairwise_cons]
        refine ⟨?_, ih hys⟩
        intro z hz
        rcases mem_insertSorted.mp hz with rfl | hz2
        · exact hyx
        · exact hy z hz2

theorem sorted_pySorted : ∀ l : List String,
    (pySorted l).Pairwise (fun a b => strLe a b = true) := by
  intro l
  induction l with
  | nil => simp [pySorted]
  | cons x xs ih => exact pairwise_insertSorted x ih

theorem mem_pySorted {a : String} : ∀ {l : List String}, a ∈ pySorted l ↔ a ∈ l := by
  intro l
  induction l with
  | nil => simp [pySorted]
  | cons x xs ih => simp [pySorted, mem_insertSorted, ih]

theorem nodup_insertSorted {x : String} : ∀ {l : List String}, x ∉ l → l.Nodup →
    (insertSorted x l).Nodup := by
  intro l
  induction l with
  | nil => intro _ _; simp [insertSorted]
  | cons y ys ih =>
      intro hx hnd
      rw [List.nodup_cons] at hnd
      obtain ⟨hyys, hysnd⟩ := hnd
      simp only [insertSorted]
      split
      · rw [List.nodup_cons]
        exact ⟨hx, List.nodup_cons.mpr ⟨hyys, hysnd⟩⟩
      · rw [List.nodup_cons]
        constructor
        · intro hmem
          rcases mem_insertSorted.mp hmem with rfl | h2
          · exact hx (List.mem_cons_self _ _)
          · exact hyys h2
        · exact ih (fun h2 => hx (List.mem_cons_of_mem y h2)) hysnd

theorem nodup_pySorted : ∀ {l : List String}, l.Nodup → (pySorted l).Nodup := by
  intro l
  induction l with
  | nil => intro _; simp [pySorted]
  | cons x xs ih =>
      intro h
      rw [List.nodup_cons] at h
      exact nodup_insertSorted (fun hm => h.1 (mem_pySorted.mp hm)) (ih h.2)

theorem pyDedupAux_nodup : ∀ (l acc : List String), acc.Nodup →
    (pyDedupAux acc l).Nodup := by
  intro l
  induction l with
  | nil =>
      intro acc h
      simpa [pyDedupAux, List.nodup_reverse] using h
  | cons c cs ih =>
      intro acc h
      simp only [pyDedupAux]
      split
      · exact ih acc h
      next hc => exact ih (c :: acc) (List.nodup_cons.mpr ⟨hc, h⟩)

theorem nodup_pyDedup (l : List String) : (pyDedup l).Nodup :=
  pyDedupAux_nodup l [] List.nodup_nil

theorem insertSorted_ne_nil (x : String) (l : List String) : insertSorted x l ≠ [] := by
  cases l with
  | nil => simp [insertSorted]
  | cons y ys =>
      simp only [insertSorted]
      split <;> simp

theorem pySorted_ne_nil {l : List String} (h : l ≠ []) : pySorted l ≠ [] := by
  cases l with
  | nil => exact absurd rfl h
  | cons x xs => exact insertSorted_ne_nil x (pySorted xs)

/-! ## Claims C5, C6, C7, C8 -/

/-- C5 counterexample: joining two delimited-set series with
`join_delimited_set_series` (append mode) does not de-duplicate or re-sort:
left `"1;2;"` and right `"2;3;"` join to `"1;2;2;3;"`, whose code list
contains the duplicate `2`. -/
theorem join_delimited_set_series_counterexample :
    join_delimited_set_series [some "1;2;"] [some "2;3;"] true
      = [some "1;2;2;3;"] ∧
    ¬ ((pySplitChar ';' "1;2;2;3;").filter fun c => c ≠ "").Nodup :=
  ⟨by decide, by decide⟩

/-- C5 (amended): `join_delimited_set_series` concatenates (append) or
overwrites without de-duplicating or sorting; the de-dup-and-sort guarantee
belongs to `hmerge`'s `_merge_delimited_sets`, whose output codes are
de-duplicated and sorted ascending *as strings* (lexicographically, which
agrees with numeric order for the single-digit codes of the example); in
particular `hmerge` with `merge_existing='all'` on an overlapping
delimited-set column with left `"1;2;"` and right `"2;3;"` yields
`"1;2;3;"`. -/
theorem merge_delimited_sets_sorted_nodup :
    (∀ x : String, mergeDelimitedSets x = none ∨
      ∃ cs : List String, cs ≠ [] ∧ cs.Pairwise (fun a b => strLe a b = true) ∧
        cs.Nodup ∧ mergeDelimitedSets x = some (joinWith ";" cs ++ ";")) ∧
    hmerge_data
      ⟨[("k", "int"), ("q", "delimited set")], [],
        [("data file", ["columns@k", "columns@q"])]⟩
      ⟨[("k", "int"), ("q", "delimited set")], [],
        [("data file", ["columns@k", "columns@q"])]⟩
      ⟨["k", "q"], [[Val.i 1, Val.s "1;2;"]]⟩
      ⟨["k", "q"], [[Val.i 1, Val.s "2;3;"]]⟩
      (some "k") none none none MergeExisting.all
      = Except.ok ⟨["k", "q"], [[Val.i 1, Val.s "1;2;3;"]]⟩ := by
  refine ⟨?_, by rfl⟩
  intro x
  simp only [mergeDelimitedSets]
  by_cases h : pyDedup ((pySplitChar ';' (stripNan x)).filter fun c => c ≠ "") = []
  · left
    rw [if_pos h]
  · right
    refine ⟨pySorted _, pySorted_ne_nil h, sorted_pySorted _,
      nodup_pySorted (nodup_pyDedup _), ?_⟩
    rw [if_neg h]

/-- C6: with `default=None` and a bare-list mapper value, `index_mapper`
raises before computing any index; with a `default` column, each bare-list
value is interpreted as "has any of these codes" on the default column. -/
theorem index_mapper_default_shorthand :
    (∀ (data : Frame) (mapper : List (Int × MapVal)),
        (∃ kv ∈ mapper, isPyList kv.2 = true) →
        ∃ msg, index_mapper data mapper none = Except.error msg) ∧
    (∀ (data : Frame) (d : String) (entries : List (Int × List Int)),
        index_mapper data (entries.map fun p => (p.1, MapVal.pyList p.2)) (some d)
          = Except.ok (entries.map fun p => (p.1, selectRows data d p.2))) := by
  constructor
  · intro data mapper hex
    simp only [index_mapper]
    cases hfind : mapper.find? (fun kv => isPyList kv.2) with
    | some kv => exact ⟨_, rfl⟩
    | none =>
        exfalso
        obtain ⟨kv, hmem, hlist⟩ := hex
        have hnone := List.find?_eq_none.mp hfind kv hmem
        rw [hlist] at hnone
        exact hnone rfl
  · intro data d entries
    simp only [index_mapper, List.map_map]
    rfl

/-- Witness for `index_mapper_default_shorthand` at a concrete input. -/
theorem index_mapper_default_shorthand_witness :
    (∃ msg, index_mapper ⟨["q"], [[Val.i 1]]⟩ [(5, MapVal.pyList [1])] none
      = Except.error msg) ∧
    index_mapper ⟨["q"], [[Val.i 1]]⟩ [(5, MapVal.pyList [1])] (some "q")
      = Except.ok [(5, [0])] :=
  ⟨index_mapper_default_shorthand.1 ⟨["q"], [[Val.i 1]]⟩ [(5, MapVal.pyList [1])]
      ⟨(5, MapVal.pyList [1]), by decide, by decide⟩,
   Eq.trans (index_mapper_default_shorthand.2 ⟨["q"], [[Val.i 1]]⟩ "q" [(5, [1])])
      (by rfl)⟩

/-- C7: in `_compatible_types`, identical types always merge silently; left
`int` with right `single` merges with a warning whose message names the
column and both types; every pair in the directed `err` table fails with a
`TypeError` whose message names the column and both types. -/
theorem compatible_types_table (name : String) :
    (∀ t, compatible_types name t t = TypeCheck.ok) ∧
    compatible_types name "int" "single"
      = TypeCheck.warn (inconsistentMsg name "int" "single") ∧
    (∀ l r, l ≠ r → r ∈ errTable l →
      compatible_types name l r = TypeCheck.err (incompatibleMsg name l r)) := by
  refine ⟨fun t => by simp [compatible_types], ?_, fun l r hne hmem => ?_⟩
  · unfold compatible_types
    rw [if_neg (by decide), if_neg (by decide), if_pos (by decide)]
  · unfold compatible_types
    rw [if_neg hne, if_pos hmem]

/-- Witness for `compatible_types_table` on the column `age` of the claim's
scenario. -/
theorem compatible_types_table_witness :
    compatible_types "age" "int" "int" = TypeCheck.ok ∧
    compatible_types "age" "int" "single"
      = TypeCheck.warn (inconsistentMsg "age" "int" "single") ∧
    compatible_types "age" "int" "string"
      = TypeCheck.err (incompatibleMsg "age" "int" "string") :=
  ⟨(compatible_types_table "age").1 "int", (compatible_types_table "age").2.1,
   (compatible_types_table "age").2.2 "int" "string" (by decide) (by decide)⟩

/-- C8: when `from_set` is not among the right metadata's sets, prep.py 1258
binds `cols` to the `None` returned by the in-place `list.sort(key=str.lower)`
call, and iterating it at prep.py 1261 raises `TypeError` — the merge never
completes over the alphanumerically sorted column list the code (and spec)
intend. -/
theorem merge_meta_missing_set_raises
    (metaLeft metaRight : Meta) (from_set : String)
    (h : metaRight.sets.lookup from_set = none) :
    merge_meta metaLeft metaRight from_set
      = Except.error "TypeError: 'NoneType' object is not iterable" := by
  unfold merge_meta mergeMetaCols
  rw [h]
  rfl

/-- Witness for `merge_meta_missing_set_raises` at a concrete input. -/
theorem merge_meta_missing_set_raises_witness :
    merge_meta ⟨[("a", "int")], [], [("data file", ["columns@a"])]⟩
      ⟨[("a", "int")], [], [("data file", ["columns@a"])]⟩ "nope"
      = Except.error "TypeError: 'NoneType' object is not iterable" :=
  merge_meta_missing_set_raises _ _ "nope" (by decide)

/-! ## Lemmas for the merge engines (claims C4 and C9) -/

theorem except_bind_ok {α β : Type} {x : Except String α} {f : α → Except String β}
    {b : β} (h : (x >>= f) = Except.ok b) :
    ∃ a, x = Except.ok a ∧ f a = Except.ok b := by
  cases x with
  | error e => simp [Bind.bind, Except.bind] at h
  | ok a => exact ⟨a, rfl, by simpa [Bind.bind, Except.bind] using h⟩

theorem cellOf_cons_self (a : String) (as : List String) (v : Val) (row : List Val) :
    cellOf (a :: as) (v :: row) a = v := by
  unfold cellOf idxOf?
  simp

theorem cellOf_cons_ne {a c : String} (hne : a ≠ c) (as : List String) (v : Val)
    (row : List Val) : cellOf (a :: as) (v :: row) c = cellOf as row c := by
  unfold cellOf
  simp only [idxOf?, if_neg hne]
  cases h : idxOf? c as with
  | none => simp [h]
  | some i => simp [h]

/-- Reading a freshly projected row back by column name recovers the
projection function. -/
theorem cellOf_map (g : String → Val) (c : String) : ∀ (cols2 : List String),
    c ∈ cols2 → cellOf cols2 (cols2.map g) c = g c := by
  intro cols2
  induction cols2 with
  | nil => intro h; cases h
  | cons a as ih =>
      intro hc
      rw [List.map_cons]
      by_cases hac : a = c
      · subst hac
        exact cellOf_cons_self a as (g a) (as.map g)
      · rw [cellOf_cons_ne hac]
        refine ih ?_
        rcases List.mem_cons.mp hc with rfl | h2
        · exact absurd rfl hac
        · exact h2

theorem selectCols_ok {f : Frame} {cs : List String} {g : Frame}
    (h : selectCols f cs = Except.ok g) :
    g.cols = cs ∧ g.rows = f.rows.map (fun r => cs.map (cellOf f.cols r)) ∧
    ∀ c ∈ cs, c ∈ f.cols := by
  unfold selectCols at h
  split at h
  next hall =>
      have hg := Except.ok.inj h
      rw [List.all_eq_true] at hall
      refine ⟨by rw [← hg], by rw [← hg], fun c hc => ?_⟩
      exact List.elem_iff.mp (by simpa using hall c hc)
  next => exact absurd h (by simp)

theorem mapExcept_ok_length {α β : Type} {f : α → Except String β} :
    ∀ {l : List α} {l2 : List β}, mapExcept f l = Except.ok l2 →
    l2.length = l.length := by
  intro l
  induction l with
  | nil =>
      intro l2 h
      simp only [mapExcept] at h
      rw [← Except.ok.inj h]
      rfl
  | cons a as ih =>
      intro l2 h
      simp only [mapExcept] at h
      obtain ⟨b, -, h2⟩ := except_bind_ok h
      obtain ⟨bs, hbs, h3⟩ := except_bind_ok h2
      rw [← Except.ok.inj h3]
      simp [ih hbs]

theorem convertRightCols_ok {mL mR : Meta} {f g : Frame}
    (h : convertRightCols mL mR f = Except.ok g) :
    g.cols = f.cols ∧ g.rows.length = f.rows.length := by
  unfold convertRightCols at h
  obtain ⟨colsConv, -, h2⟩ := except_bind_ok h
  obtain ⟨rows, hrows, h3⟩ := except_bind_ok h2
  have hg := Except.ok.inj h3
  exact ⟨by rw [← hg], by rw [← hg]; exact mapExcept_ok_length hrows⟩

theorem length_flatMap_of_one {α β : Type} (l : List α) (f : α → List β)
    (h : ∀ a ∈ l, (f a).length = 1) : (l.flatMap f).length = l.length := by
  induction l with
  | nil => rfl
  | cons a as ih =>
      rw [List.flatMap_cons, List.length_append, List.length_cons,
        h a (List.mem_cons_self a as), ih fun x hx => h x (List.mem_cons_of_mem a hx)]
      omega

theorem filter_isinEq_length_le_one {α : Type} (f : α → Val) :
    ∀ (l : List α), ((l.map f).Pairwise fun a b => isinEq a b = false) →
    ∀ v : Val, (l.filter fun x => isinEq v (f x)).length ≤ 1 := by
  intro l
  induction l with
  | nil => intro _ v; simp
  | cons x xs ih =>
      intro hp v
      rw [List.map_cons, List.pairwise_cons] at hp
      obtain ⟨hx, hxs⟩ := hp
      by_cases hvx : isinEq v (f x) = true
      · rw [List.filter_cons, if_pos hvx]
        have heq : v = f x := (isinEq_eq_true_iff v (f x)).mp hvx
        have hnil : xs.filter (fun y => isinEq v (f y)) = [] := by
          rw [List.filter_eq_nil_iff]
          intro y hy
          have hfy := hx (f y) (List.mem_map_of_mem f hy)
          rw [heq]
          simp [hfy]
        rw [hnil]
        simp
      · rw [List.filter_cons, if_neg (by simp [hvx])]
        exact ih hxs v

theorem mergeLeftJoin_length (l r : Frame) (lk rk : String)
    (h : ∀ lr ∈ l.rows,
      (r.rows.filter fun rr =>
        isinEq (cellOf l.cols lr lk) (cellOf r.cols rr rk)).length ≤ 1) :
    (mergeLeftJoin l r lk rk).rows.length = l.rows.length := by
  simp only [mergeLeftJoin]
  refine length_flatMap_of_one _ _ fun lr hlr => ?_
  cases hms : (r.rows.filter fun rr =>
      isinEq (cellOf l.cols lr lk) (cellOf r.cols rr rk)) with
  | nil => rfl
  | cons m ms2 =>
      have hle := h lr hlr
      rw [hms] at hle
      have hnil : ms2 = [] := by
        cases ms2 with
        | nil => rfl
        | cons _ _ => simp at hle
      subst hnil
      rfl

theorem hmergeUpdateStep_ok {mL : Meta} {dL rS : Frame} {lo ro : String}
    {cu : List String} {me : MergeExisting} {g : Frame}
    (h : hmergeUpdateStep mL dL rS lo ro cu me = Except.ok g) :
    g.cols = dL.cols ∧ g.rows.length = dL.rows.length := by
  unfold hmergeUpdateStep at h
  split at h
  · exact absurd h (by simp)
  · split at h
    · exact absurd h (by simp)
    · split at h
      · exact absurd h (by simp)
      · have hg := Except.ok.inj h
        exact ⟨by rw [← hg], by rw [← hg]; simp⟩

theorem mergeMetaStep_fold_spec (mL mR : Meta) :
    ∀ (cols acc res : List String),
    cols.foldlM (mergeMetaStep mL mR) acc = Except.ok res →
    (∃ sub, res = acc ++ sub ∧ sub.Sublist cols) ∧
    (∀ c ∈ cols, (mL.columns.lookup c).isSome → c ∈ res) := by
  intro cols
  induction cols with
  | nil =>
      intro acc res h
      rw [List.foldlM_nil] at h
      have := Except.ok.inj h
      exact ⟨⟨[], by simp [← this], List.nil_sublist []⟩, by simp⟩
  | cons c cs ih =>
      intro acc res h
      rw [List.foldlM_cons] at h
      obtain ⟨acc2, hstep, hrest⟩ := except_bind_ok h
      unfold mergeMetaStep at hstep
      cases hr : mR.columns.lookup c with
      | none => rw [hr] at hstep; exact absurd hstep (by simp)
      | some rtype =>
          rw [hr] at hstep
          cases hl : mL.columns.lookup c with
          | none =>
              rw [hl] at hstep
              have hstep2 : (Except.ok acc : Except String (List String))
                  = Except.ok acc2 := hstep
              have hacc2 : acc2 = acc := (Except.ok.inj hstep2).symm
              subst hacc2
              obtain ⟨⟨sub, hres, hsub⟩, hmem⟩ := ih acc2 res hrest
              refine ⟨⟨sub, hres, hsub.cons c⟩, fun x hx hsome => ?_⟩
              rcases List.mem_cons.mp hx with rfl | hx2
              · rw [hl] at hsome; simp at hsome
              · exact hmem x hx2 hsome
          | some ltype =>
              rw [hl] at hstep
              have hstep2 : (match compatible_types c ltype rtype with
                  | TypeCheck.err msg => Except.error msg
                  | _ => Except.ok (acc ++ [c])) = Except.ok acc2 := hstep
              have hacc2 : acc2 = acc ++ [c] := by
                cases hct : compatible_types c ltype rtype with
                | ok => rw [hct] at hstep2; exact (Except.ok.inj hstep2).symm
                | warn msg => rw [hct] at hstep2; exact (Except.ok.inj hstep2).symm
                | err msg => rw [hct] at hstep2; exact absurd hstep2 (by simp)
              subst hacc2
              obtain ⟨⟨sub, hres, hsub⟩, hmem⟩ := ih _ res hrest
              refine ⟨⟨c :: sub, by simpa using hres, hsub.cons₂ c⟩,
                fun x hx hsome => ?_⟩
              rcases List.mem_cons.mp hx with rfl | hx2
              · rw [hres]; simp
              · exact hmem x hx2 hsome

theorem merge_meta_ok_spec {mL mR : Meta} {fs : String} {cols cu : List String}
    (h : merge_meta mL mR fs = Except.ok (cols, cu)) :
    cols.Nodup ∧ cu.Sublist cols ∧
    (∀ c ∈ cols, (mL.columns.lookup c).isSome → c ∈ cu) := by
  unfold merge_meta at h
  obtain ⟨colsOpt, hcc, h2⟩ := except_bind_ok h
  cases colsOpt with
  | none => exact absurd h2 (by simp)
  | some cols0 =>
      obtain ⟨cu0, hfold, h3⟩ := except_bind_ok h2
      cases hdf : mL.sets.lookup "data file" with
      | none => rw [hdf] at h3; exact absurd h3 (by simp)
      | some _ =>
          rw [hdf] at h3
          have hpair := Except.ok.inj h3
          have hcols : cols0 = cols := congrArg Prod.fst hpair
          have hcu : cu0 = cu := congrArg Prod.snd hpair
          rw [← hcols, ← hcu]
          have hnd : cols0.Nodup := by
            unfold mergeMetaCols at hcc
            cases hset : mR.sets.lookup fs with
            | none =>
                rw [hset] at hcc
                exact absurd (Except.ok.inj hcc) (by simp [pyListSortReturnValue])
            | some items =>
                rw [hset] at hcc
                obtain ⟨raw, -, hcc2⟩ := except_bind_ok hcc
                have hsome := Except.ok.inj hcc2
                have huniq : uniquify_list raw = cols0 := Option.some.inj hsome
                rw [← huniq]
                exact nodup_pyDedup raw
          obtain ⟨⟨sub, hres, hsub⟩, hmem⟩ :=
            mergeMetaStep_fold_spec mL mR cols0 [] cu0 hfold
          rw [List.nil_append] at hres
          subst hres
          exact ⟨hnd, hsub, hmem⟩

theorem ok_bind {α β : Type} (a : α) (f : α → Except String β) :
    (Except.ok a >>= f : Except String β) = f a := rfl

theorem error_bind {α β : Type} (e : String) (f : α → Except String β) :
    (Except.error e >>= f : Except String β) = Except.error e := rfl

theorem contains_nil_eq_false (c : String) : ([] : List String).contains c = false :=
  rfl

theorem mergeLeftJoin_cols_of_no_shared (l r : Frame) (k : String)
    (hsh : (r.cols.filter fun c => c ≠ k).filter (fun c => l.cols.contains c) = []) :
    (mergeLeftJoin l r k k).cols = l.cols ++ r.cols.filter fun c => c ≠ k := by
  simp only [mergeLeftJoin, eq_self_iff_true, if_true, hsh, contains_nil_eq_false,
    Bool.false_eq_true, if_false, List.map_id']

/-- The shape of the `hmerge` output after the update step and the left join,
given unique right keys and no suffix-shared columns: the left row count is
preserved and the join key appears exactly once. -/
theorem hmerge_final_shape
    (dL dataL2 rSlice rSub m : Frame) (k : String) (nc : List String)
    (hcols2 : dataL2.cols = dL.cols)
    (hlen2 : dataL2.rows.length = dL.rows.length)
    (hsel : selectCols rSlice nc = Except.ok rSub)
    (hm : mergeLeftJoin dataL2 rSub k k = m)
    (hkNC : k ∈ nc)
    (hndL : dL.cols.Nodup)
    (hkL : k ∈ dL.cols)
    (hsh : (nc.filter (fun c => c ≠ k)).filter (fun c => dL.cols.contains c) = [])
    (hkeysS : (rSlice.rows.map fun r => cellOf rSlice.cols r k).Pairwise
        (fun a b => isinEq a b = false)) :
    m.rows.length = dL.rows.length ∧ m.cols.count k = 1 := by
  obtain ⟨hrc, hrr, hmemsub⟩ := selectCols_ok hsel
  have hkeys2 : (rSub.rows.map fun rr => cellOf rSub.cols rr k).Pairwise
      (fun a b => isinEq a b = false) := by
    rw [hrr, hrc, List.map_map]
    have hcomp : ((fun rr => cellOf nc rr k) ∘ fun r => nc.map (cellOf rSlice.cols r))
        = fun r => cellOf rSlice.cols r k := by
      funext r
      exact cellOf_map (cellOf rSlice.cols r) k nc hkNC
    rw [hcomp]
    exact hkeysS
  have hfilter : ∀ lr ∈ dataL2.rows,
      (rSub.rows.filter fun rr =>
        isinEq (cellOf dataL2.cols lr k) (cellOf rSub.cols rr k)).length ≤ 1 :=
    fun lr _ =>
      filter_isinEq_length_le_one (fun rr => cellOf rSub.cols rr k) rSub.rows hkeys2 _
  constructor
  · rw [← hm, mergeLeftJoin_length dataL2 rSub k k hfilter]
    exact hlen2
  · rw [← hm, mergeLeftJoin_cols_of_no_shared dataL2 rSub k
      (by rw [hrc, hcols2]; exact hsh)]
    rw [List.count_append]
    have h1 : dL.cols.count k = 1 := List.count_eq_one_of_mem hndL hkL
    have h2 : (rSub.cols.filter fun c => c ≠ k).count k = 0 := by
      rw [List.count_eq_zero]
      intro hmem3
      have hprop := (List.mem_filter.mp hmem3).2
      simp at hprop
    rw [hcols2, h1, h2]

/-- C4 counterexample: `hmerge` is a pandas left join, so a right dataset
with duplicated join-key values multiplies the matching left rows — one left
row with key `1` against two right rows with key `1` yields a two-row
result, not a one-row one. -/
theorem hmerge_duplicate_keys_expand_rows_counterexample :
    hmerge_data ⟨[("k", "int")], [], [("data file", ["columns@k"])]⟩
      ⟨[("k", "int"), ("w", "int")], [],
        [("data file", ["columns@k", "columns@w"])]⟩
      ⟨["k"], [[Val.i 1]]⟩
      ⟨["k", "w"], [[Val.i 1, Val.i 10], [Val.i 1, Val.i 20]]⟩
      (some "k") none none none MergeExisting.nothing
      = Except.ok ⟨["k", "w"], [[Val.i 1, Val.i 10], [Val.i 1, Val.i 20]]⟩ ∧
    ([[Val.i 1, Val.i 10], [Val.i 1, Val.i 20]] : List (List Val)).length
      ≠ ([[Val.i 1]] : List (List Val)).length :=
  ⟨by rfl, by decide⟩

/-- C4 (amended): `hmerge` with the join key given via `on` (equal key names
on both sides) never produces a duplicate join-key column — the merged
column list contains the key exactly once — and the merged data has exactly
as many rows as the left input *provided the right dataset's key values are
pairwise distinct under pandas key matching* (`isinEq`, under which `NaN`
matches `NaN`, so repeated `NaN` keys also count as duplicates); with
duplicated right keys the left join expands rows (see the counterexample).
Well-formedness hypotheses: the left columns carry no duplicates and are
all declared in the left meta (so that pandas adds no `_x`/`_y` suffix pair
for the key). -/
theorem hmerge_on_key_preserves_left_rows
    (mL mR : Meta) (dL dR : Frame) (k : String) (fs : Option String)
    (me : MergeExisting) (m : Frame)
    (hok : hmerge_data mL mR dL dR (some k) none none fs me = Except.ok m)
    (hndL : dL.cols.Nodup)
    (hkeys : (dR.rows.map fun r => cellOf dR.cols r k).Pairwise
      (fun a b => isinEq a b = false))
    (hdm : ∀ c ∈ dL.cols, (mL.columns.lookup c).isSome) :
    m.rows.length = dL.rows.length ∧ m.cols.count k = 1 := by
  unfold hmerge_data at hok
  simp only [Option.isNone_some, Option.isSome_some, Option.isNone_none,
    Option.isSome_none, Bool.false_and, Bool.true_and, Bool.and_false,
    Bool.false_or, Bool.or_false, if_false, ok_bind, error_bind, ne_eq,
    decide_not, decide_True, Bool.not_true, Bool.false_eq_true] at hok
  have hkL : dL.cols.contains k = true := by
    by_contra hc
    rw [if_pos hc] at hok
    exact absurd hok (by simp)
  rw [if_neg (not_not_intro hkL)] at hok
  have hkR : dR.cols.contains k = true := by
    by_contra hc
    rw [if_pos hc] at hok
    exact absurd hok (by simp)
  rw [if_neg (not_not_intro hkR)] at hok
  obtain ⟨mm, hmm, hok2⟩ := except_bind_ok hok
  rw [if_pos trivial] at hok2
  have hcu : mm.2.contains k = true := by
    by_contra hc
    rw [if_neg hc] at hok2
    exact absurd hok2 (by simp)
  rw [if_pos hcu] at hok2
  have hmm2 : merge_meta mL mR (fs.getD "data file") = Except.ok (mm.1, mm.2) := by
    rw [Prod.mk.eta]; exact hmm
  obtain ⟨hnd1, hsub, hmem⟩ := merge_meta_ok_spec hmm2
  have hnd2 : mm.2.Nodup := hnd1.sublist hsub
  have hkInCols : k ∈ mm.1 := hsub.mem (by simpa using hcu)
  have hkNotErase : k ∉ mm.2.erase k := fun hmem2 =>
    (hnd2.mem_erase_iff.mp hmem2).1 rfl
  have hkNC : k ∈ mm.1.filter fun c => !decide ((mm.2.erase k).contains c = true) := by
    refine List.mem_filter.mpr ⟨hkInCols, ?_⟩
    simp [hkNotErase]
  have hsh : ((mm.1.filter fun c => !decide ((mm.2.erase k).contains c = true)).filter
      (fun c => c ≠ k)).filter (fun c => dL.cols.contains c) = [] := by
    rw [List.filter_eq_nil_iff]
    intro c hc
    obtain ⟨hc1, hc2⟩ := List.mem_filter.mp hc
    obtain ⟨hc3, hc4⟩ := List.mem_filter.mp hc1
    intro hcontains
    have hcL : c ∈ dL.cols := by simpa using hcontains
    have hcu2 : c ∈ mm.2 := hmem c hc3 (hdm c hcL)
    have hck : c ≠ k := by simpa using hc2
    have hcerase : c ∈ mm.2.erase k := (hnd2.mem_erase_iff).mpr ⟨hck, hcu2⟩
    simp [hcerase] at hc4
  have hkLmem : k ∈ dL.cols := by simpa using hkL
  have hkeysS : (((⟨dR.cols, dR.rows.filter fun r =>
      pyIsin (cellOf dR.cols r k) (colVals dL k)⟩ : Frame)).rows.map
        fun r => cellOf dR.cols r k).Pairwise (fun a b => isinEq a b = false) :=
    hkeys.sublist ((List.filter_sublist _).map _)
  by_cases hemp : (mm.2.erase k).isEmpty = true
  · rw [if_pos hemp] at hok2
    obtain ⟨rSub, hsel, hok3⟩ := except_bind_ok hok2
    exact hmerge_final_shape dL dL _ rSub m k _ rfl rfl hsel (Except.ok.inj hok3)
      hkNC hndL hkLmem hsh hkeysS
  · rw [if_neg hemp] at hok2
    obtain ⟨y, hupd, hok3⟩ := except_bind_ok hok2
    obtain ⟨rSub, hsel, hok4⟩ := except_bind_ok hok3
    obtain ⟨hycols, hylen⟩ := hmergeUpdateStep_ok hupd
    exact hmerge_final_shape dL y _ rSub m k _ hycols hylen hsel (Except.ok.inj hok4)
      hkNC hndL hkLmem hsh hkeysS

/-- Witness for `hmerge_on_key_preserves_left_rows` at a concrete input with
a unique right key. -/
theorem hmerge_on_key_preserves_left_rows_witness :
    (⟨["k", "w"], [[Val.i 1, Val.i 10]]⟩ : Frame).rows.length
      = (⟨["k"], [[Val.i 1]]⟩ : Frame).rows.length ∧
    (⟨["k", "w"], [[Val.i 1, Val.i 10]]⟩ : Frame).cols.count "k" = 1 :=
  hmerge_on_key_preserves_left_rows
    ⟨[("k", "int")], [], [("data file", ["columns@k"])]⟩
    ⟨[("k", "int"), ("w", "int")], [], [("data file", ["columns@k", "columns@w"])]⟩
    ⟨["k"], [[Val.i 1]]⟩ ⟨["k", "w"], [[Val.i 1, Val.i 10]]⟩
    "k" none MergeExisting.nothing ⟨["k", "w"], [[Val.i 1, Val.i 10]]⟩
    (by rfl) (by decide) (by decide) (by decide)

/-- C9 counterexample: with distinct `left_on`/`right_on`, prep.py 1792
filters with `data_right[left_on].isin(data_left[right_on])` — the column
names are swapped between the datasets — so a right row whose `right_on` key
(`b = 1`) already exists among the left `left_on` values (`a = 1`) is *not*
dropped: the merge keeps both rows instead of appending nothing. -/
theorem vmerge_swapped_slicer_counterexample :
    vmerge_data
      ⟨[("a", "int"), ("b", "int")], [],
        [("data file", ["columns@a", "columns@b"])]⟩
      ⟨[("a", "int"), ("b", "int")], [],
        [("data file", ["columns@a", "columns@b"])]⟩
      ⟨["a", "b"], [[Val.i 1, Val.i 9]]⟩
      ⟨["a", "b"], [[Val.i 7, Val.i 1]]⟩
      none (some "a") (some "b") "data file" 10
      = Except.ok ⟨["a", "b"], [[Val.i 1, Val.i 9], [Val.i 7, Val.i 1]]⟩ ∧
    pyIsin (cellOf ["a", "b"] [Val.i 7, Val.i 1] "b")
      (colVals ⟨["a", "b"], [[Val.i 1, Val.i 9]]⟩ "a") = true ∧
    (⟨["a", "b"], [[Val.i 1, Val.i 9], [Val.i 7, Val.i 1]]⟩ : Frame).rows.length
      ≠ 1 :=
  ⟨by rfl, by decide, by decide⟩

/-- C9 (amended): when the key is given via `on` (so `left_on = right_on`),
every right row whose key value already exists among the left key values is
dropped before the rows are appended: the merged row list is exactly the
left rows (projected unchanged onto the output columns — right rows never
update them) followed by the surviving right rows.  With distinct
`left_on`/`right_on` names the slicer compares swapped columns (see the
counterexample). -/
theorem vmerge_on_key_appends_or_skips
    (mL mR : Meta) (dL dR : Frame) (k : String) (fs : String) (fuel : Nat)
    (m : Frame)
    (hok : vmerge_data mL mR dL dR (some k) none none fs fuel = Except.ok m) :
    m.rows.length = dL.rows.length
      + (dR.rows.filter fun r =>
          !(pyIsin (cellOf dR.cols r k) (colVals dL k))).length ∧
    m.rows.take dL.rows.length
      = dL.rows.map (fun r => m.cols.map fun c => cellOf dL.cols r c) := by
  unfold vmerge_data at hok
  simp only [Option.isNone_some, Option.isSome_some, Option.isNone_none,
    Option.isSome_none, Bool.false_and, Bool.true_and, Bool.and_false,
    Bool.false_or, Bool.or_false, if_false, ok_bind, error_bind,
    Bool.false_eq_true] at hok
  have hkL : dL.cols.contains k = true := by
    by_contra hc
    rw [if_pos hc] at hok
    exact absurd hok (by simp)
  rw [if_neg (not_not_intro hkL)] at hok
  have hkM : ¬ ((mL.columns.lookup k).isNone = true) := by
    intro hc
    rw [if_pos hc] at hok
    exact absurd hok (by simp)
  rw [if_neg hkM] at hok
  rw [if_neg (not_not_intro hkL)] at hok
  rw [if_neg hkM] at hok
  obtain ⟨mmv, hmmv, hok2⟩ := except_bind_ok hok
  have hkR : dR.cols.contains k = true := by
    by_contra hc
    rw [if_pos hc] at hok2
    exact absurd hok2 (by simp)
  rw [if_neg (not_not_intro hkR)] at hok2
  obtain ⟨dR3, hconv, hok3⟩ := except_bind_ok hok2
  obtain ⟨setCols, hsc, hok4⟩ := except_bind_ok hok3
  obtain ⟨hmcols, hmrows, hmemsub⟩ := selectCols_ok hok4
  obtain ⟨hcols3, hlen3⟩ := convertRightCols_ok hconv
  constructor
  · rw [hmrows]
    simp only [concatFrames, List.length_map, List.length_append]
    rw [hlen3]
  · rw [hmrows, hmcols]
    simp only [concatFrames, List.map_append]
    rw [List.take_left' (by simp)]
    rw [List.map_map]
    apply List.map_congr_left
    intro r hr
    simp only [Function.comp]
    congr 1
    · apply List.map_congr_left
      intro c hc
      exact cellOf_map (cellOf dL.cols r) c _ (hmemsub c (List.mem_append_left _ hc))
    · apply List.map_congr_left
      intro c hc
      exact cellOf_map (cellOf dL.cols r) c _ (hmemsub c (List.mem_append_right _ hc))

/-- Witness for `vmerge_on_key_appends_or_skips` at a concrete input: the
right row with the duplicate key `1` is skipped, the row with key `2` is
appended, and the left row survives unchanged. -/
theorem vmerge_on_key_appends_or_skips_witness :
    (⟨["a"], [[Val.i 1], [Val.i 2]]⟩ : Frame).rows.length
      = (⟨["a"], [[Val.i 1]]⟩ : Frame).rows.length
      + ((⟨["a"], [[Val.i 1], [Val.i 2]]⟩ : Frame).rows.filter fun r =>
          !(pyIsin (cellOf (⟨["a"], [[Val.i 1], [Val.i 2]]⟩ : Frame).cols r "a")
            (colVals ⟨["a"], [[Val.i 1]]⟩ "a"))).length ∧
    (⟨["a"], [[Val.i 1], [Val.i 2]]⟩ : Frame).rows.take
        (⟨["a"], [[Val.i 1]]⟩ : Frame).rows.length
      = (⟨["a"], [[Val.i 1]]⟩ : Frame).rows.map
          (fun r => (⟨["a"], [[Val.i 1], [Val.i 2]]⟩ : Frame).cols.map
            fun c => cellOf (⟨["a"], [[Val.i 1]]⟩ : Frame).cols r c) :=
  vmerge_on_key_appends_or_skips
    ⟨[("a", "int")], [], [("data file", ["columns@a"])]⟩
    ⟨[("a", "int")], [], [("data file", ["columns@a"])]⟩
    ⟨["a"], [[Val.i 1]]⟩ ⟨["a"], [[Val.i 1], [Val.i 2]]⟩
    "a" "data file" 10 ⟨["a"], [[Val.i 1], [Val.i 2]]⟩ (by rfl)
